import Mathlib

/-!
Verification of the Antigravity-Manager request-dispatch engine.

This file gives a shallow embedding, in Lean, of the parts of the
Antigravity-Manager Rust sources that the specification's claims are
about, and proves (or refutes) each claim over that embedding:

* a JSON value model standing for `serde_json::Value`
  (the `serde_json` parser itself is external library code and is
  modelled, where a function parses a string, by an explicit
  `String → Option Json` argument);
* the Claude mapper schema helpers `clean_json_schema` and
  `uppercase_schema_types` (src-tauri/src/proxy/mappers/claude/utils.rs);
* the rate-limit tracker `parse_from_error`, `parse_rate_limit_reason`,
  `parse_duration_string` and `parse_retry_time_from_body`
  (server/src/proxy/rate_limit.rs), with the fixed regular expressions
  embedded as executable leftmost-first matchers;
* the envelope builders `wrap_request` (Gemini) and
  `transform_openai_request` / `transform_openai_response` (OpenAI);
* the OpenAI SSE streaming transformer `create_openai_sse_stream`
  as a buffer-threading fold over arriving byte chunks;
* the OpenAI dispatch handler retry loop `handle_chat_completions`;
* the account store operations (server/src/core/services/account.rs)
  over a relational-store model;
* the warm-up scheduler pass (server/src/core/scheduler.rs);
* the token manager `get_token` selection algorithm
  (server/src/proxy/token_manager.rs).

Machine integers: the Rust side uses `u16`/`u64`/`i64`; none of the
verified paths can overflow (statuses are small, durations are seconds),
so they are modelled as `Nat`/`Int`.
-/

namespace Antigravity

/-- Model of `serde_json::Value`. Numbers are modelled as `Int`: none of
the verified code paths depends on floating-point behaviour. -/
inductive Json where
  | null : Json
  | bool : Bool → Json
  | num : Int → Json
  | str : String → Json
  | arr : List Json → Json
  | obj : List (String × Json) → Json

/-- Association-list lookup standing for `serde_json::Map::get`. -/
def lookupField : List (String × Json) → String → Option Json
  | [], _ => none
  | (k, v) :: rest, key => if k = key then some v else lookupField rest key

/-- `Value::get(key)` on an object. -/
def Json.lookup : Json → String → Option Json
  | .obj fields, key => lookupField fields key
  | _, _ => none

/-- `Value::get(index)` on an array. -/
def Json.index : Json → Nat → Option Json
  | .arr xs, i => xs.get? i
  | _, _ => none

/-- `Value::as_str`. -/
def Json.asStr : Json → Option String
  | .str s => some s
  | _ => none

/-- `Value::as_u64`. -/
def Json.asU64 : Json → Option Nat
  | .num n => if 0 ≤ n then some n.toNat else none
  | _ => none

/-- `Value::as_array` (just the object/array discrimination we need). -/
def Json.asArr : Json → Option (List Json)
  | .arr xs => some xs
  | _ => none

/-- `Value::is_object`. -/
def Json.isObj : Json → Bool
  | .obj _ => true
  | _ => false

theorem sizeOf_filter_le (p : String × Json → Bool) :
    ∀ l : List (String × Json), sizeOf (l.filter p) ≤ sizeOf l := by
  intro l
  induction l with
  | nil => simp [List.filter]
  | cons hd tl ih =>
    simp only [List.filter]
    cases p hd with
    | true => simp only [List.cons.sizeOf_spec]; omega
    | false => simp only [List.cons.sizeOf_spec]; omega

/-- `obj.remove("additionalProperties")` on the model: dropping the key. -/
def removeAdditional (fields : List (String × Json)) : List (String × Json) :=
  fields.filter (fun kv => !(kv.1 = "additionalProperties" : Bool))

mutual

/-- Embedding of `clean_json_schema`
(src-tauri/src/proxy/mappers/claude/utils.rs): remove
`additionalProperties` from the top object, recurse into object values
of `properties` and into `items` when it is an object. -/
def clean_json_schema : Json → Json
  | .obj fields => .obj (cleanTopFields (removeAdditional fields))
  | v => v
termination_by j => sizeOf j
decreasing_by
  simp_wf
  rename_i fs
  have h := sizeOf_filter_le (fun kv => !(kv.1 = "additionalProperties" : Bool)) fs
  simp only [removeAdditional]
  omega

/-- Per-entry treatment of the top object's fields in `clean_json_schema`. -/
def cleanTopFields : List (String × Json) → List (String × Json)
  | [] => []
  | (k, v) :: rest =>
      (k,
        if k = "properties" then cleanPropsVal v
        else if k = "items" then (if v.isObj then clean_json_schema v else v)
        else v) :: cleanTopFields rest
termination_by l => sizeOf l
decreasing_by
  all_goals simp_wf
  all_goals omega

/-- The `properties` value: when it is an object, clean each object-typed
entry, leave the rest alone. -/
def cleanPropsVal : Json → Json
  | .obj props => .obj (cleanPropsFields props)
  | v => v
termination_by j => sizeOf j
decreasing_by
  all_goals simp_wf
  all_goals omega

/-- Entry-wise cleaning of the `properties` map. -/
def cleanPropsFields : List (String × Json) → List (String × Json)
  | [] => []
  | (k, v) :: rest =>
      (k, if v.isObj then clean_json_schema v else v) :: cleanPropsFields rest
termination_by l => sizeOf l
decreasing_by
  all_goals simp_wf
  all_goals omega

end

/-- Model of Rust `str::to_uppercase` (character-wise uppercasing; the
schema type names involved are ASCII). -/
def upperStr (s : String) : String :=
  String.mk (s.data.map Char.toUpper)

/-- The `type` field: uppercase when it holds a string. -/
def upperTypeVal : Json → Json
  | .str s => .str (upperStr s)
  | v => v

mutual

/-- Embedding of `uppercase_schema_types`
(src-tauri/src/proxy/mappers/claude/utils.rs): uppercase a string `type`
field, recurse into every value of `properties`, into `items`, and into
every element of `anyOf` / `oneOf` / `allOf` arrays. -/
def uppercase_schema_types : Json → Json
  | .obj fields => .obj (upperFields fields)
  | v => v
termination_by j => sizeOf j
decreasing_by
  all_goals simp_wf
  all_goals omega

/-- Per-entry treatment of an object's fields in `uppercase_schema_types`. -/
def upperFields : List (String × Json) → List (String × Json)
  | [] => []
  | (k, v) :: rest =>
      (k,
        if k = "type" then upperTypeVal v
        else if k = "properties" then upperPropsVal v
        else if k = "items" then uppercase_schema_types v
        else if k = "anyOf" ∨ k = "oneOf" ∨ k = "allOf" then upperArrVal v
        else v) :: upperFields rest
termination_by l => sizeOf l
decreasing_by
  all_goals simp_wf
  all_goals omega

/-- The `properties` value: when it is an object, recurse into every entry. -/
def upperPropsVal : Json → Json
  | .obj props => .obj (upperAllFields props)
  | v => v
termination_by j => sizeOf j
decreasing_by
  all_goals simp_wf
  all_goals omega

/-- Recurse `uppercase_schema_types` into every value of a map. -/
def upperAllFields : List (String × Json) → List (String × Json)
  | [] => []
  | (k, v) :: rest => (k, uppercase_schema_types v) :: upperAllFields rest
termination_by l => sizeOf l
decreasing_by
  all_goals simp_wf
  all_goals omega

/-- An `anyOf`/`oneOf`/`allOf` value: when it is an array, recurse into
every element. -/
def upperArrVal : Json → Json
  | .arr xs => .arr (upperList xs)
  | v => v
termination_by j => sizeOf j
decreasing_by
  all_goals simp_wf
  all_goals omega

/-- Recurse `uppercase_schema_types` into every element of a list. -/
def upperList : List Json → List Json
  | [] => []
  | x :: rest => uppercase_schema_types x :: upperList rest
termination_by l => sizeOf l
decreasing_by
  all_goals simp_wf
  all_goals omega

end

theorem toNat_ofNat_valid (n : Nat) (h : n.isValidChar) : (Char.ofNat n).toNat = n := by
  have hlt : n < 2 ^ 32 := by
    rcases h with h | h
    · omega
    · omega
  simp only [Char.ofNat, dif_pos h, Char.ofNatAux, Char.toNat, UInt32.toNat]
  simp [BitVec.toNat_ofNatLt]

theorem toUpper_idem (c : Char) : c.toUpper.toUpper = c.toUpper := by
  by_cases h : c.toNat ≥ 97 ∧ c.toNat ≤ 122
  case pos =>
    have hv : (c.toNat - 32).isValidChar := Or.inl (by omega)
    have ht : (Char.ofNat (c.toNat - 32)).toNat = c.toNat - 32 := toNat_ofNat_valid _ hv
    have h1 : c.toUpper = Char.ofNat (c.toNat - 32) := by
      simp only [Char.toUpper]
      rw [if_pos h]
    rw [h1]
    simp only [Char.toUpper, ht]
    rw [if_neg (by omega)]
  case neg =>
    have h1 : c.toUpper = c := by
      simp only [Char.toUpper]
      rw [if_neg h]
    rw [h1, h1]

theorem upperStr_idem (s : String) : upperStr (upperStr s) = upperStr s := by
  simp only [upperStr, List.map_map]
  congr 1
  apply List.map_congr_left
  intro a _
  exact toUpper_idem a

theorem upperTypeVal_idem (j : Json) : upperTypeVal (upperTypeVal j) = upperTypeVal j := by
  cases j <;> simp [upperTypeVal, upperStr_idem]

mutual

theorem uppercase_idem :
    ∀ j, uppercase_schema_types (uppercase_schema_types j) = uppercase_schema_types j
  | .obj fields => by
      simp only [uppercase_schema_types]
      rw [upperFields_idem fields]
  | .null => by simp [uppercase_schema_types]
  | .bool _ => by simp [uppercase_schema_types]
  | .num _ => by simp [uppercase_schema_types]
  | .str _ => by simp [uppercase_schema_types]
  | .arr _ => by simp [uppercase_schema_types]
termination_by j => sizeOf j

theorem upperFields_idem : ∀ l, upperFields (upperFields l) = upperFields l
  | [] => by simp [upperFields]
  | (k, v) :: rest => by
      simp only [upperFields]
      by_cases h1 : k = "type"
      · simp only [if_pos h1]
        rw [upperTypeVal_idem v, upperFields_idem rest]
      · simp only [if_neg h1]
        by_cases h2 : k = "properties"
        · simp only [if_pos h2]
          rw [upperPropsVal_idem v, upperFields_idem rest]
        · simp only [if_neg h2]
          by_cases h3 : k = "items"
          · simp only [if_pos h3]
            rw [uppercase_idem v, upperFields_idem rest]
          · simp only [if_neg h3]
            by_cases h4 : k = "anyOf" ∨ k = "oneOf" ∨ k = "allOf"
            · simp only [if_pos h4]
              rw [upperArrVal_idem v, upperFields_idem rest]
            · simp only [if_neg h4]
              rw [upperFields_idem rest]
termination_by l => sizeOf l

theorem upperPropsVal_idem : ∀ j, upperPropsVal (upperPropsVal j) = upperPropsVal j
  | .obj props => by
      simp only [upperPropsVal]
      rw [upperAllFields_idem props]
  | .null => by simp [upperPropsVal]
  | .bool _ => by simp [upperPropsVal]
  | .num _ => by simp [upperPropsVal]
  | .str _ => by simp [upperPropsVal]
  | .arr _ => by simp [upperPropsVal]
termination_by j => sizeOf j

theorem upperAllFields_idem : ∀ l, upperAllFields (upperAllFields l) = upperAllFields l
  | [] => by simp [upperAllFields]
  | (k, v) :: rest => by
      simp only [upperAllFields]
      rw [uppercase_idem v, upperAllFields_idem rest]
termination_by l => sizeOf l

theorem upperArrVal_idem : ∀ j, upperArrVal (upperArrVal j) = upperArrVal j
  | .arr xs => by
      simp only [upperArrVal]
      rw [upperList_idem xs]
  | .null => by simp [upperArrVal]
  | .bool _ => by simp [upperArrVal]
  | .num _ => by simp [upperArrVal]
  | .str _ => by simp [upperArrVal]
  | .obj _ => by simp [upperArrVal]
termination_by j => sizeOf j

theorem upperList_idem : ∀ l, upperList (upperList l) = upperList l
  | [] => by simp [upperList]
  | x :: rest => by
      simp only [upperList]
      rw [uppercase_idem x, upperList_idem rest]
termination_by l => sizeOf l

end

theorem clean_isObj (j : Json) : (clean_json_schema j).isObj = j.isObj := by
  cases j <;> simp [clean_json_schema, Json.isObj]

theorem removeAdditional_idem (l : List (String × Json)) :
    removeAdditional (removeAdditional l) = removeAdditional l := by
  induction l with
  | nil => rfl
  | cons hd tl ih =>
    by_cases h : hd.1 = "additionalProperties"
    · simpa [removeAdditional, List.filter, h] using ih
    · simpa [removeAdditional, List.filter, h] using ih

theorem removeAdditional_cleanTopFields (l : List (String × Json)) :
    removeAdditional (cleanTopFields l) = cleanTopFields (removeAdditional l) := by
  induction l with
  | nil => simp [cleanTopFields, removeAdditional]
  | cons hd tl ih =>
    obtain ⟨k, v⟩ := hd
    by_cases h : k = "additionalProperties"
    · have hp : ¬ (k = "properties") := by simp [h]
      have hi : ¬ (k = "items") := by simp [h]
      simpa [cleanTopFields, removeAdditional, List.filter, h, hp, hi] using ih
    · simpa [cleanTopFields, removeAdditional, List.filter, h] using ih

mutual

theorem clean_idem :
    ∀ j, clean_json_schema (clean_json_schema j) = clean_json_schema j
  | .obj fields => by
      simp only [clean_json_schema]
      rw [removeAdditional_cleanTopFields, removeAdditional_idem,
        cleanTopFields_idem (removeAdditional fields)]
  | .null => by simp [clean_json_schema]
  | .bool _ => by simp [clean_json_schema]
  | .num _ => by simp [clean_json_schema]
  | .str _ => by simp [clean_json_schema]
  | .arr _ => by simp [clean_json_schema]
termination_by j => sizeOf j
decreasing_by
  simp_wf
  have h := sizeOf_filter_le (fun kv => !(kv.1 = "additionalProperties" : Bool)) fields
  simp only [removeAdditional]
  omega

theorem cleanTopFields_idem : ∀ l, cleanTopFields (cleanTopFields l) = cleanTopFields l
  | [] => by simp [cleanTopFields]
  | (k, v) :: rest => by
      simp only [cleanTopFields]
      by_cases h2 : k = "properties"
      · simp only [if_pos h2]
        rw [cleanPropsVal_idem v, cleanTopFields_idem rest]
      · simp only [if_neg h2]
        by_cases h3 : k = "items"
        · simp only [if_pos h3]
          by_cases hv : v.isObj = true
          · simp only [if_pos hv, clean_isObj, if_pos hv]
            rw [clean_idem v, cleanTopFields_idem rest]
          · simp only [if_neg hv]
            rw [cleanTopFields_idem rest]
        · simp only [if_neg h3]
          rw [cleanTopFields_idem rest]
termination_by l => sizeOf l

theorem cleanPropsVal_idem : ∀ j, cleanPropsVal (cleanPropsVal j) = cleanPropsVal j
  | .obj props => by
      simp only [cleanPropsVal]
      rw [cleanPropsFields_idem props]
  | .null => by simp [cleanPropsVal]
  | .bool _ => by simp [cleanPropsVal]
  | .num _ => by simp [cleanPropsVal]
  | .str _ => by simp [cleanPropsVal]
  | .arr _ => by simp [cleanPropsVal]
termination_by j => sizeOf j

theorem cleanPropsFields_idem :
    ∀ l, cleanPropsFields (cleanPropsFields l) = cleanPropsFields l
  | [] => by simp [cleanPropsFields]
  | (k, v) :: rest => by
      simp only [cleanPropsFields]
      by_cases hv : v.isObj = true
      · simp only [if_pos hv, clean_isObj, if_pos hv]
        rw [clean_idem v, cleanPropsFields_idem rest]
      · simp only [if_neg hv]
        rw [cleanPropsFields_idem rest]
termination_by l => sizeOf l

end

/-- C10: the Claude schema helpers are idempotent: for every JSON value
`v`, `uppercase_schema_types (uppercase_schema_types v) =
uppercase_schema_types v` and `clean_json_schema (clean_json_schema v) =
clean_json_schema v`. -/
theorem C10_schema_helpers_idempotent (v : Json) :
    uppercase_schema_types (uppercase_schema_types v) = uppercase_schema_types v ∧
    clean_json_schema (clean_json_schema v) = clean_json_schema v :=
  ⟨uppercase_idem v, clean_idem v⟩

/-! ## Rate-limit tracker (server/src/proxy/rate_limit.rs)

The composite duration regex
`(?:(\d+)h)?(?:(\d+)m)?(?:(\d+(?:\.\d+)?)s)?(?:(\d+)ms)?` of
`parse_duration_string` is embedded as an executable matcher with the
exact leftmost-first semantics of the `regex` crate: every group is
optional, so `captures` always yields the match starting at offset 0,
and a greedy `(\d+)` followed by a literal can only match the full run
of digits (shorter runs end in a digit, not the literal). -/

/-- Split a leading run of ASCII digits from the rest. -/
def takeDigits : List Char → List Char × List Char
  | [] => ([], [])
  | c :: cs =>
      if c.isDigit then
        let (d, r) := takeDigits cs
        (c :: d, r)
      else ([], c :: cs)

/-- Numeric value of a digit run (models `str::parse::<u64>`). -/
def digitsVal (ds : List Char) : Nat :=
  ds.foldl (fun acc c => acc * 10 + (c.toNat - 48)) 0

/-- The optional group `(?:(\d+)X)?` for a literal character `X`: the full
digit run followed by `X`, else no consumption (group empty, value 0). -/
def matchNumGroup (x : Char) (cs : List Char) : Nat × List Char :=
  let (d, r) := takeDigits cs
  if d = [] then (0, cs)
  else
    match r with
    | c :: r2 => if c = x then (digitsVal d, r2) else (0, cs)
    | [] => (0, cs)

/-- The optional seconds group `(?:(\d+(?:\.\d+)?)s)?`, already applying
the `f64::ceil` the Rust code performs on the captured value. -/
def matchSecGroup (cs : List Char) : Nat × List Char :=
  let (d, r) := takeDigits cs
  if d = [] then (0, cs)
  else
    match r with
    | c :: r2 =>
        if c = '.' then
          let (f, r3) := takeDigits r2
          if f = [] then (0, cs)
          else
            match r3 with
            | c2 :: r4 =>
                if c2 = 's' then
                  (digitsVal d + (if digitsVal f = 0 then 0 else 1), r4)
                else (0, cs)
            | [] => (0, cs)
        else if c = 's' then (digitsVal d, r2)
        else (0, cs)
    | [] => (0, cs)

/-- The optional group `(?:(\d+)ms)?`: digits followed by the literal
`ms`. -/
def matchMsGroup (cs : List Char) : Nat × List Char :=
  let (d, r) := takeDigits cs
  if d = [] then (0, cs)
  else
    match r with
    | c :: c2 :: r2 => if c = 'm' ∧ c2 = 's' then (digitsVal d, r2) else (0, cs)
    | _ => (0, cs)

/-- Embedding of `parse_duration_string` (server/src/proxy/rate_limit.rs):
run the four capture groups at offset 0, total the seconds
(`h*3600 + m*60 + ceil(s) + (ms+999)/1000`), reject a zero total. -/
def parse_duration_string (s : String) : Option Nat :=
  let (h, cs1) := matchNumGroup 'h' s.data
  let (m, cs2) := matchNumGroup 'm' cs1
  let (sec, cs3) := matchSecGroup cs2
  let (ms, _) := matchMsGroup cs3
  let total := h * 3600 + m * 60 + sec + (ms + 999) / 1000
  if total = 0 then none else some total

/-- C4 (code_bug evidence): `parse_duration_string` yields 7261 for
`"2h1m1s"`, 42 for `"42s"` and 5400 for `"1h30m"` as the claim states,
but on `"500ms"` the greedy minutes group of the regex matches `"500m"`
first, so the parser returns 30000 seconds (500 minutes) instead of the
claimed 1 second. -/
theorem C4_parse_duration_string_values :
    parse_duration_string "2h1m1s" = some 7261 ∧
    parse_duration_string "42s" = some 42 ∧
    parse_duration_string "1h30m" = some 5400 ∧
    parse_duration_string "500ms" = some 30000 := by
  refine ⟨?_, ?_, ?_, ?_⟩ <;> decide

/-- Rust `str::trim` on the char-list model (kernel-reducible). -/
def trimChars (cs : List Char) : List Char :=
  ((cs.dropWhile Char.isWhitespace).reverse.dropWhile Char.isWhitespace).reverse

/-- Does `s` start with `pat`? -/
def listStarts : List Char → List Char → Bool
  | [], _ => true
  | _ :: _, [] => false
  | p :: ps, c :: cs => p = c && listStarts ps cs

/-- Does `s` contain `pat` as a contiguous sublist? -/
def listContainsSub : List Char → List Char → Bool
  | [], pat => listStarts pat []
  | c :: cs, pat => listStarts pat (c :: cs) || listContainsSub cs pat

/-- Substring test: models Rust `str::contains` with a string pattern. -/
def strContains (s pat : String) : Bool :=
  listContainsSub s.data pat.data

/-- Models `str::parse::<u64>`: optional leading `+`, then only digits. -/
def parseU64 (s : String) : Option Nat :=
  match s.data with
  | [] => none
  | c :: rest =>
      let ds := if c = '+' then rest else c :: rest
      if ds ≠ [] ∧ ds.all Char.isDigit then some (digitsVal ds) else none

/-- The five `reason` tags of the rate-limit tracker. -/
inductive RateLimitReason where
  | QuotaExhausted
  | ModelCapacityExhausted
  | RateLimitExceeded
  | ServerError
  | Unknown
deriving DecidableEq

/-- Embedding of `parse_rate_limit_reason`: JSON
`error.details[0].reason` when the body parses, else substring scan of
the body text. `pj` stands for the external `serde_json::from_str`. -/
def parse_rate_limit_reason (pj : String → Option Json) (body : String) :
    RateLimitReason :=
  let t := trimChars body.data
  let fromJson : Option RateLimitReason :=
    if listStarts "\x7b".data t ∨ listStarts "[".data t then
      match pj (String.mk t) with
      | some j =>
          match ((((((j.lookup "error").bind (·.lookup "details")).bind
              Json.asArr).bind (·.get? 0)).bind (·.lookup "reason")).bind
              Json.asStr) with
          | some r =>
              some (if r = "QUOTA_EXHAUSTED" then .QuotaExhausted
                else if r = "RATE_LIMIT_EXCEEDED" then .RateLimitExceeded
                else .Unknown)
          | none => none
      | none => none
    else none
  match fromJson with
  | some r => r
  | none =>
      if strContains body "exhausted" ∨ strContains body "quota" then
        if strContains body "model_capacity" ∨ strContains body "Tokens per minute" ∨
            strContains body "Requests per minute" then
          .ModelCapacityExhausted
        else .QuotaExhausted
      else if strContains body "rate limit" ∨ strContains body "too many requests" then
        .RateLimitExceeded
      else .Unknown

/-- Case-insensitive literal matcher at the current position (regex `(?i)`
on an ASCII literal). -/
def matchLitCI : List Char → List Char → Option (List Char)
  | [], cs => some cs
  | _ :: _, [] => none
  | l :: ls, c :: cs => if c.toLower = l.toLower then matchLitCI ls cs else none

/-- Case-sensitive literal matcher at the current position. -/
def matchLit : List Char → List Char → Option (List Char)
  | [], cs => some cs
  | _ :: _, [] => none
  | l :: ls, c :: cs => if c = l then matchLit ls cs else none

/-- Leftmost regex search: try the position matcher at every offset. -/
def scanFor (m : List Char → Option Nat) : List Char → Option Nat
  | [] => m []
  | c :: cs =>
      match m (c :: cs) with
      | some n => some n
      | none => scanFor m cs

/-- Position matcher for `(?i)try again in (\d+)m\s*(\d+)s`. -/
def matchTryAgainMS (cs : List Char) : Option Nat :=
  match matchLitCI "try again in ".data cs with
  | none => none
  | some r1 =>
      let (d1, r2) := takeDigits r1
      if d1 = [] then none
      else
        match r2 with
        | c :: r3 =>
            if c = 'm' then
              let r4 := r3.dropWhile Char.isWhitespace
              let (d2, r5) := takeDigits r4
              if d2 = [] then none
              else
                match r5 with
                | c2 :: _ => if c2 = 's' then some (digitsVal d1 * 60 + digitsVal d2) else none
                | [] => none
            else none
        | [] => none

/-- Position matcher for `(?i)(?:try again in|backoff for|wait)\s*(\d+)s`
(the three alternatives start with distinct letters, so committing to the
first literal that matches is exact). -/
def matchBackoffS (cs : List Char) : Option Nat :=
  let afterLit :=
    match matchLitCI "try again in".data cs with
    | some r => some r
    | none =>
        match matchLitCI "backoff for".data cs with
        | some r => some r
        | none => matchLitCI "wait".data cs
  match afterLit with
  | none => none
  | some r1 =>
      let r2 := r1.dropWhile Char.isWhitespace
      let (d, r3) := takeDigits r2
      if d = [] then none
      else
        match r3 with
        | c :: _ => if c = 's' then some (digitsVal d) else none
        | [] => none

/-- Position matcher for a case-insensitive `<pre>(\d+)<post>` pattern. -/
def matchPrePost (pre post : List Char) (cs : List Char) : Option Nat :=
  match matchLitCI pre cs with
  | none => none
  | some r1 =>
      let (d, r2) := takeDigits r1
      if d = [] then none
      else
        match matchLitCI post r2 with
        | some _ => some (digitsVal d)
        | none => none

/-- Position matcher for the case-sensitive `\(wait (\d+)s\)`. -/
def matchWaitParen (cs : List Char) : Option Nat :=
  match matchLit "(wait ".data cs with
  | none => none
  | some r1 =>
      let (d, r2) := takeDigits r1
      if d = [] then none
      else
        match matchLit "s)".data r2 with
        | some _ => some (digitsVal d)
        | none => none

/-- Embedding of `parse_retry_time_from_body`: JSON
`error.details[0].metadata.quotaResetDelay` (through
`parse_duration_string`), then JSON `error.retry_after`, then the five
textual fallback patterns in source order. -/
def parse_retry_time_from_body (pj : String → Option Json) (body : String) :
    Option Nat :=
  let t := trimChars body.data
  let fromJson : Option Nat :=
    if listStarts "\x7b".data t ∨ listStarts "[".data t then
      match pj (String.mk t) with
      | some j =>
          let delayStr := (((((j.lookup "error").bind (·.lookup "details")).bind
              Json.asArr).bind (·.get? 0)).bind (·.lookup "metadata")).bind
              (·.lookup "quotaResetDelay") |>.bind Json.asStr
          match delayStr.bind parse_duration_string with
          | some n => some n
          | none => ((j.lookup "error").bind (·.lookup "retry_after")).bind Json.asU64
      | none => none
    else none
  match fromJson with
  | some n => some n
  | none =>
      match scanFor matchTryAgainMS body.data with
      | some n => some n
      | none =>
          match scanFor matchBackoffS body.data with
          | some n => some n
          | none =>
              match scanFor (matchPrePost "quota will reset in ".data " second".data)
                  body.data with
              | some n => some n
              | none =>
                  match scanFor (matchPrePost "retry after ".data " second".data)
                      body.data with
                  | some n => some n
                  | none => scanFor matchWaitParen body.data

/-- Model of `RateLimitInfo` (times as seconds since an arbitrary epoch). -/
structure RateLimitInfo where
  reset_time : Nat
  retry_after_sec : Nat
  detected_at : Nat
  reason : RateLimitReason
  model : Option String
deriving DecidableEq

/-- The tracker's `DashMap`, modelled as an association list with
first-match lookup; `insert` prepends. -/
def TrackerState := List (String × RateLimitInfo)

/-- `DashMap::get`. -/
def lookupLimit : TrackerState → String → Option RateLimitInfo
  | [], _ => none
  | (k, v) :: rest, key => if k = key then some v else lookupLimit rest key

/-- `DashMap::insert`. -/
def insertLimit (key : String) (info : RateLimitInfo) (st : TrackerState) :
    TrackerState :=
  (key, info) :: st

/-- The storage key: `account_id ":" model` when a model is given. -/
def limitKey (account_id : String) (model : Option String) : String :=
  match model with
  | some m => account_id ++ ":" ++ m
  | none => account_id

/-- The per-reason defaults used when no retry-after value was extracted. -/
def defaultRetrySeconds : RateLimitReason → Nat
  | .QuotaExhausted => 3600
  | .RateLimitExceeded => 30
  | .ServerError => 20
  | .ModelCapacityExhausted => 120
  | .Unknown => 60

/-- The retry-after extraction order of `parse_from_error`: numeric
`Retry-After` header first, then the body. -/
def extractRetrySeconds (pj : String → Option Json)
    (retry_after_header : Option String) (body : String) : Option Nat :=
  match retry_after_header.bind parseU64 with
  | some s => some s
  | none => parse_retry_time_from_body pj body

/-- Embedding of `parse_from_error` (server/src/proxy/rate_limit.rs).
Only statuses 429/500/503/529 act; the reason is classified (429) or
`ServerError` (5xx); an extracted retry-after below 2 s is raised to 2 s;
with nothing extracted the per-reason default applies; the entry is
inserted at `limitKey`. -/
def parse_from_error (pj : String → Option Json) (st : TrackerState)
    (now : Nat) (account_id : String) (status : Nat)
    (retry_after_header : Option String) (body : String)
    (model : Option String) : Option RateLimitInfo × TrackerState :=
  if ¬ (status = 429 ∨ status = 500 ∨ status = 503 ∨ status = 529) then
    (none, st)
  else
    let reason :=
      if status = 429 then parse_rate_limit_reason pj body else .ServerError
    let retry_sec :=
      match extractRetrySeconds pj retry_after_header body with
      | some s => if s < 2 then 2 else s
      | none => defaultRetrySeconds reason
    let info : RateLimitInfo :=
      { reset_time := now + retry_sec, retry_after_sec := retry_sec,
        detected_at := now, reason := reason, model := model }
    (some info, insertLimit (limitKey account_id model) info st)

/-- C3: `parse_from_error` acts only on statuses 429/500/503/529 and
otherwise returns none leaving the tracker unchanged; when it acts and no
retry-after value can be extracted from header or body, the stored retry
seconds equal the per-reason default (QuotaExhausted 3600,
ModelCapacityExhausted 120, RateLimitExceeded 30, ServerError 20,
Unknown 60); when a value is extracted the stored value is never below
2 seconds. -/
theorem C3_parse_from_error_contract (pj : String → Option Json)
    (st : TrackerState) (now : Nat) (acct : String) (status : Nat)
    (hdr : Option String) (body : String) (model : Option String) :
    (¬ (status = 429 ∨ status = 500 ∨ status = 503 ∨ status = 529) →
      parse_from_error pj st now acct status hdr body model = (none, st)) ∧
    ((status = 429 ∨ status = 500 ∨ status = 503 ∨ status = 529) →
      extractRetrySeconds pj hdr body = none →
      ∃ info,
        parse_from_error pj st now acct status hdr body model =
          (some info, insertLimit (limitKey acct model) info st) ∧
        info.retry_after_sec =
          defaultRetrySeconds
            (if status = 429 then parse_rate_limit_reason pj body
             else .ServerError)) ∧
    (∀ s, (status = 429 ∨ status = 500 ∨ status = 503 ∨ status = 529) →
      extractRetrySeconds pj hdr body = some s →
      ∃ info,
        parse_from_error pj st now acct status hdr body model =
          (some info, insertLimit (limitKey acct model) info st) ∧
        2 ≤ info.retry_after_sec) ∧
    (defaultRetrySeconds .QuotaExhausted = 3600 ∧
     defaultRetrySeconds .ModelCapacityExhausted = 120 ∧
     defaultRetrySeconds .RateLimitExceeded = 30 ∧
     defaultRetrySeconds .ServerError = 20 ∧
     defaultRetrySeconds .Unknown = 60) := by
  refine ⟨?_, ?_, ?_, by simp [defaultRetrySeconds]⟩
  · intro hgate
    simp [parse_from_error, hgate]
  · intro hact hext
    unfold parse_from_error
    rw [if_neg (not_not_intro hact)]
    refine ⟨_, rfl, ?_⟩
    simp only [hext]
  · intro s hact hext
    unfold parse_from_error
    rw [if_neg (not_not_intro hact)]
    refine ⟨_, rfl, ?_⟩
    simp only [hext]
    split <;> omega

/-- Witness for C3: concrete instances discharging each hypothesis.
A 200 status leaves the tracker unchanged; a 429 with empty body and no
header stores the Unknown default of 60 s; a 429 with `Retry-After: 1`
stores the 2-second floor. -/
theorem C3_parse_from_error_contract_witness :
    (parse_from_error (fun _ => none) [] 0 "a" 200 none "" none = (none, [])) ∧
    (∃ info,
        parse_from_error (fun _ => none) [] 0 "a" 429 none "" none =
          (some info, insertLimit (limitKey "a" none) info []) ∧
        info.retry_after_sec = 60) ∧
    (∃ info,
        parse_from_error (fun _ => none) [] 0 "a" 429 (some "1") "" none =
          (some info, insertLimit (limitKey "a" none) info []) ∧
        2 ≤ info.retry_after_sec) := by
  have h200 := C3_parse_from_error_contract (fun _ => none) [] 0 "a" 200 none "" none
  have h429 := C3_parse_from_error_contract (fun _ => none) [] 0 "a" 429 none "" none
  have hfloor := C3_parse_from_error_contract (fun _ => none) [] 0 "a" 429 (some "1") "" none
  refine ⟨h200.1 (by decide), ?_, ?_⟩
  · have h := h429.2.1 (by decide) (by decide)
    obtain ⟨info, heq, hval⟩ := h
    refine ⟨info, heq, ?_⟩
    rw [hval]
    decide
  · exact hfloor.2.2.1 1 (by decide) (by decide)

/-! ## Envelope builders (Gemini `wrap_request`, OpenAI
`transform_openai_request` / `transform_openai_response`)

`resolve_request_config` and `inject_google_search_tool` live in
`proxy/mappers/common_utils.rs`, which is not among the provided source
files; the resolved configuration and the search-tool injector are
therefore taken as explicit arguments, and the UUID produced by
`uuid::Uuid::new_v4()` is an explicit string argument. -/

/-- The result of `resolve_request_config` (common_utils, not in the
provided sources): resolved model, request type, grounding flag and the
optional image configuration. -/
structure RequestConfig where
  final_model : String
  request_type : String
  inject_google_search : Bool
  image_config : Option Json

/-- `serde_json::Map` update: replace in place, else append. -/
def setField : List (String × Json) → String → Json → List (String × Json)
  | [], k, v => [(k, v)]
  | (k0, v0) :: rest, k, v =>
      if k0 = k then (k, v) :: rest else (k0, v0) :: setField rest k v

/-- `serde_json::Map` removal. -/
def removeField (fields : List (String × Json)) (k : String) :
    List (String × Json) :=
  fields.filter (fun kv => !(kv.1 = k : Bool))

/-- The `generationConfig` entry-or-insert plus
`maxOutputTokens := 65535` mutation of the Gemini `wrap_request`. -/
def forceMaxTokens (body : Json) : Json :=
  match body with
  | .obj fields =>
      let gc := (lookupField fields "generationConfig").getD (.obj [])
      let gc2 :=
        match gc with
        | .obj gfs => Json.obj (setField gfs "maxOutputTokens" (.num 65535))
        | other => other
      .obj (setField fields "generationConfig" gc2)
  | v => v

/-- The image-generation rewrite shared by the mappers: drop `tools` and
`systemInstruction`, clean `generationConfig` and insert `imageConfig`. -/
def applyImageConfig (ic : Json) (body : Json) : Json :=
  match body with
  | .obj fields =>
      let fields1 := removeField (removeField fields "tools") "systemInstruction"
      let gc := (lookupField fields1 "generationConfig").getD (.obj [])
      let gc2 :=
        match gc with
        | .obj gfs =>
            Json.obj (setField
              (removeField (removeField (removeField gfs "thinkingConfig")
                "responseMimeType") "responseModalities")
              "imageConfig" ic)
        | other => other
      .obj (setField fields1 "generationConfig" gc2)
  | v => v

/-- Embedding of the Gemini `wrap_request`
(src-tauri/src/proxy/mappers/gemini/wrapper.rs). `resolveConfig` stands
for `resolve_request_config`, `injectSearch` for
`inject_google_search_tool`, `uuid` for the fresh v4 UUID. -/
def wrap_request (resolveConfig : String → String → RequestConfig)
    (injectSearch : Json → Json) (uuid : String)
    (body : Json) (project_id : String) (model_name : String) : Json :=
  let final_model :=
    if ¬ (model_name = "") then model_name
    else (((body.lookup "model").bind Json.asStr).getD "gemini-2.5-pro")
  let inner0 := forceMaxTokens body
  let config := resolveConfig final_model final_model
  let inner1 := if config.inject_google_search then injectSearch inner0 else inner0
  let inner2 :=
    match config.image_config with
    | some ic => applyImageConfig ic inner1
    | none => inner1
  Json.obj
    [("project", .str project_id),
     ("requestId", .str ("agent-" ++ uuid)),
     ("request", inner2),
     ("model", .str config.final_model),
     ("userAgent", .str "antigravity"),
     ("requestType", .str config.request_type)]

/-- One OpenAI chat message. -/
structure OpenAIMessage where
  role : String
  content : String

/-- The OpenAI surface request (temperature/top_p modelled as integral
defaults; the claims do not depend on float values). -/
structure OpenAIRequest where
  model : String
  messages : List OpenAIMessage
  stream : Bool
  max_tokens : Option Nat
  temperature : Option Int
  top_p : Option Int

/-- Embedding of `transform_openai_request`
(src-tauri/src/proxy/mappers/openai/request.rs): build Gemini contents,
generationConfig and safetySettings, then wrap in the envelope with
`requestId = "openai-" + uuid` and `userAgent = "antigravity-openai"`. -/
def transform_openai_request (resolveConfig : String → String → RequestConfig)
    (injectSearch : Json → Json) (uuid : String)
    (request : OpenAIRequest) (project_id : String) (mapped_model : String) :
    Json :=
  let config := resolveConfig request.model mapped_model
  let contents : List Json :=
    request.messages.map (fun msg =>
      Json.obj
        [("role", .str (if msg.role = "assistant" then "model" else msg.role)),
         ("parts", .arr [Json.obj [("text", .str msg.content)]])])
  let safety := fun (cat : String) =>
    Json.obj [("category", .str cat), ("threshold", .str "OFF")]
  let inner0 : Json :=
    Json.obj
      [("contents", .arr contents),
       ("generationConfig", Json.obj
         [("maxOutputTokens", .num (request.max_tokens.getD 65535)),
          ("temperature", .num (request.temperature.getD 1)),
          ("topP", .num (request.top_p.getD 1))]),
       ("safetySettings", .arr
         [safety "HARM_CATEGORY_HARASSMENT",
          safety "HARM_CATEGORY_HATE_SPEECH",
          safety "HARM_CATEGORY_SEXUALLY_EXPLICIT",
          safety "HARM_CATEGORY_DANGEROUS_CONTENT"])]
  let inner1 := if config.inject_google_search then injectSearch inner0 else inner0
  let inner2 :=
    match config.image_config with
    | some ic => applyImageConfig ic inner1
    | none => inner1
  Json.obj
    [("project", .str project_id),
     ("requestId", .str ("openai-" ++ uuid)),
     ("request", inner2),
     ("model", .str config.final_model),
     ("userAgent", .str "antigravity-openai"),
     ("requestType", .str config.request_type)]

/-- C1 counterexample: the claim says every surface mapper sends
`requestId = "agent-" + UUID` and `userAgent = "antigravity"`, but the
OpenAI mapper sends `requestId = "openai-" + UUID` and
`userAgent = "antigravity-openai"` (its own unit test asserts the
`openai-` prefix). -/
theorem C1_envelope_counterexample :
    (transform_openai_request
        (fun a _ => RequestConfig.mk a "agent" false none) id "u"
        (OpenAIRequest.mk "gpt-4" [] false none none none) "p"
        "gpt-4").lookup "userAgent" = some (Json.str "antigravity-openai") ∧
    (transform_openai_request
        (fun a _ => RequestConfig.mk a "agent" false none) id "u"
        (OpenAIRequest.mk "gpt-4" [] false none none none) "p"
        "gpt-4").lookup "requestId" = some (Json.str ("openai-" ++ "u")) ∧
    ¬ ("antigravity-openai" = "antigravity") := by
  refine ⟨rfl, rfl, by decide⟩

/-- C1 amended: the Gemini wrapper's envelope carries
`requestId = "agent-" + uuid` and `userAgent = "antigravity"`, while the
OpenAI mapper's envelope carries `requestId = "openai-" + uuid` and
`userAgent = "antigravity-openai"`, for every input. -/
theorem C1_envelope_fields (resolveConfig : String → String → RequestConfig)
    (injectSearch : Json → Json) (uuid : String) (body : Json)
    (project_id model_name : String) (request : OpenAIRequest)
    (mapped_model : String) :
    ((wrap_request resolveConfig injectSearch uuid body project_id
        model_name).lookup "requestId" = some (.str ("agent-" ++ uuid)) ∧
     (wrap_request resolveConfig injectSearch uuid body project_id
        model_name).lookup "userAgent" = some (.str "antigravity")) ∧
    ((transform_openai_request resolveConfig injectSearch uuid request
        project_id mapped_model).lookup "requestId" =
          some (.str ("openai-" ++ uuid)) ∧
     (transform_openai_request resolveConfig injectSearch uuid request
        project_id mapped_model).lookup "userAgent" =
          some (.str "antigravity-openai")) := by
  refine ⟨⟨?_, ?_⟩, ?_, ?_⟩ <;>
    simp [wrap_request, transform_openai_request, Json.lookup, lookupField]

/-! ## OpenAI response transformers
(src-tauri/src/proxy/mappers/openai/response.rs and streaming.rs) -/

/-- Unwrap the v1internal `{response: …}` envelope if present
(`gemini_response.get("response").unwrap_or(gemini_response)`). -/
def unwrapResponse (resp : Json) : Json :=
  (resp.lookup "response").getD resp

/-- `candidates[0].content.parts[0].<key>` as string. -/
def firstPartField (raw : Json) (key : String) : Option Json :=
  ((((raw.lookup "candidates").bind (·.index 0)).bind
    (·.lookup "content")).bind (·.lookup "parts")).bind (·.index 0) |>.bind
    (·.lookup key)

/-- `candidates[0].finishReason` as string. -/
def candidateFinishReason (raw : Json) : Option String :=
  (((raw.lookup "candidates").bind (·.index 0)).bind
    (·.lookup "finishReason")).bind Json.asStr

/-- The non-streaming finish-reason mapping of
`transform_openai_response`: `STOP → stop`, `MAX_TOKENS → length`,
anything else (including `SAFETY`) → `stop`. -/
def responseFinishReason (raw : Json) : String :=
  match candidateFinishReason raw with
  | some f => if f = "STOP" then "stop" else if f = "MAX_TOKENS" then "length" else "stop"
  | none => "stop"

/-- A choice of the OpenAI surface response. -/
structure Choice where
  index : Nat
  message : OpenAIMessage
  finish_reason : String

/-- The OpenAI surface response. -/
structure OpenAIResponse where
  id : String
  object : String
  created : Int
  model : String
  choices : List Choice

/-- Markdown image data-URI rendered from an `inlineData` part. -/
def inlineDataMarkdown (img : Json) (fallback : String) : String :=
  let mime := ((img.lookup "mimeType").bind Json.asStr).getD "image/png"
  let data := ((img.lookup "data").bind Json.asStr).getD ""
  if ¬ (data = "") then "![image](data:" ++ mime ++ ";base64," ++ data ++ ")"
  else fallback

/-- Embedding of `transform_openai_response`
(src-tauri/src/proxy/mappers/openai/response.rs). `now` stands for
`chrono::Utc::now().timestamp()`. -/
def transform_openai_response (now : Int) (gemini_response : Json) :
    OpenAIResponse :=
  let raw := unwrapResponse gemini_response
  let text_part := ((firstPartField raw "text").bind Json.asStr).getD ""
  let text :=
    match firstPartField raw "inlineData" with
    | some img => inlineDataMarkdown img text_part
    | none => text_part
  { id := ((raw.lookup "responseId").bind Json.asStr).getD "resp_unknown",
    object := "chat.completion",
    created := now,
    model := ((raw.lookup "modelVersion").bind Json.asStr).getD "unknown",
    choices := [{ index := 0,
                  message := { role := "assistant", content := text },
                  finish_reason := responseFinishReason raw }] }

/-- The streaming finish-reason mapping of `create_openai_sse_stream`
(src-tauri/src/proxy/mappers/openai/streaming.rs): `STOP → stop`,
`MAX_TOKENS → length`, `SAFETY → content_filter`, anything else passes
through. -/
def streamFinishReason (f : String) : String :=
  if f = "STOP" then "stop"
  else if f = "MAX_TOKENS" then "length"
  else if f = "SAFETY" then "content_filter"
  else f

/-- C5 counterexample: a response whose `candidates[0].finishReason` is
`"SAFETY"` is transformed by the non-streaming
`transform_openai_response` into `finish_reason = "stop"`, not the
claimed `"content_filter"` (the `SAFETY → content_filter` arm exists
only in the streaming transformer). -/
theorem C5_safety_counterexample :
    ((transform_openai_response 0
        (Json.obj [("candidates", .arr [Json.obj
          [("content", Json.obj [("parts", .arr [Json.obj [("text", .str "x")]])]),
           ("finishReason", .str "SAFETY")]])])).choices.map
      Choice.finish_reason) = ["stop"] ∧
    ¬ (("stop" : String) = "content_filter") := by
  refine ⟨rfl, by decide⟩

/-- C5 amended: the streaming transformer maps `STOP → stop`,
`MAX_TOKENS → length`, `SAFETY → content_filter`; the non-streaming
transformer maps `STOP → stop`, `MAX_TOKENS → length`, and any other
value — in particular `SAFETY` — to `stop`. -/
theorem C5_finish_reason_mapping :
    (streamFinishReason "STOP" = "stop" ∧
     streamFinishReason "MAX_TOKENS" = "length" ∧
     streamFinishReason "SAFETY" = "content_filter") ∧
    (∀ (now : Int) (resp : Json),
      candidateFinishReason (unwrapResponse resp) = some "STOP" →
      (transform_openai_response now resp).choices.map Choice.finish_reason =
        ["stop"]) ∧
    (∀ (now : Int) (resp : Json),
      candidateFinishReason (unwrapResponse resp) = some "MAX_TOKENS" →
      (transform_openai_response now resp).choices.map Choice.finish_reason =
        ["length"]) ∧
    (∀ (now : Int) (resp : Json),
      candidateFinishReason (unwrapResponse resp) = some "SAFETY" →
      (transform_openai_response now resp).choices.map Choice.finish_reason =
        ["stop"]) := by
  refine ⟨⟨rfl, rfl, rfl⟩, ?_, ?_, ?_⟩ <;>
    (intro now resp h;
     simp [transform_openai_response, responseFinishReason, h])

/-- Witness for C5's amended theorem: the quantified parts applied at
concrete responses with each finish reason. -/
theorem C5_finish_reason_mapping_witness :
    ((transform_openai_response 0
        (Json.obj [("candidates", .arr [Json.obj
          [("finishReason", .str "STOP")]])])).choices.map
      Choice.finish_reason = ["stop"]) ∧
    ((transform_openai_response 0
        (Json.obj [("candidates", .arr [Json.obj
          [("finishReason", .str "MAX_TOKENS")]])])).choices.map
      Choice.finish_reason = ["length"]) ∧
    ((transform_openai_response 0
        (Json.obj [("candidates", .arr [Json.obj
          [("finishReason", .str "SAFETY")]])])).choices.map
      Choice.finish_reason = ["stop"]) := by
  refine ⟨?_, ?_, ?_⟩
  · exact (C5_finish_reason_mapping).2.1 0 _ rfl
  · exact (C5_finish_reason_mapping).2.2.1 0 _ rfl
  · exact (C5_finish_reason_mapping).2.2.2 0 _ rfl

/-! ## OpenAI dispatch handler retry loop
(src-tauri/src/proxy/handlers/openai.rs, `handle_chat_completions`) -/

/-- The outcome of one upstream call attempt: a transport error or an
HTTP response with status and body text. -/
inductive UpstreamOutcome where
  | netErr (msg : String)
  | response (status : Nat) (body : String)

/-- What the handler hands back: a successful upstream response passed on
to response transformation, or an HTTP error (status, message). -/
inductive HandlerResult where
  | success (status : Nat) (body : String)
  | httpError (status : Nat) (message : String)
deriving DecidableEq

/-- The retry loop body of `handle_chat_completions`: on a transport
error record it and retry; on a 2xx return the response; on
429/404/403/401 record the error and rotate to the next attempt; on any
other status return it verbatim; with no attempts left, return the
429 exhaustion error. `outcomes i` is the upstream outcome of attempt
`i`. -/
def dispatchLoop (outcomes : Nat → UpstreamOutcome) :
    Nat → Nat → String → HandlerResult
  | 0, _, last_error =>
      .httpError 429 ("All accounts exhausted. Last error: " ++ last_error)
  | fuel + 1, attempt, _ =>
      match outcomes attempt with
      | .netErr msg => dispatchLoop outcomes fuel (attempt + 1) msg
      | .response status body =>
          if 200 ≤ status ∧ status < 300 then .success status body
          else
            let err := "HTTP " ++ toString status ++ ": " ++ body
            if status = 429 ∨ status = 404 ∨ status = 403 ∨ status = 401 then
              dispatchLoop outcomes fuel (attempt + 1) err
            else .httpError status body

/-- Embedding of `handle_chat_completions`: run the loop for
`max(pool_len, 1)` attempts starting from an empty last error. -/
def handle_chat_completions (outcomes : Nat → UpstreamOutcome)
    (pool_len : Nat) : HandlerResult :=
  dispatchLoop outcomes (max pool_len 1) 0 ""

/-- An attempt outcome on which this handler rotates: a transport error
or one of the statuses 429/404/403/401. -/
def rotationEligible : UpstreamOutcome → Prop
  | .netErr _ => True
  | .response status _ => status = 429 ∨ status = 404 ∨ status = 403 ∨ status = 401

/-- C2 counterexample: with a two-account pool, an upstream HTTP 500 on
the first attempt is returned to the client verbatim — the handler does
not rotate on 500 (nor on 503/529), and this handler never marks the
account rate-limited, contradicting the claim. -/
theorem C2_http500_counterexample :
    handle_chat_completions (fun _ => .response 500 "oops") 2 =
      .httpError 500 "oops" ∧
    handle_chat_completions (fun _ => .response 503 "down") 2 =
      .httpError 503 "down" ∧
    handle_chat_completions (fun _ => .response 529 "busy") 2 =
      .httpError 529 "busy" := by
  refine ⟨?_, ?_, ?_⟩ <;> rfl

/-- C2 amended: the src-tauri OpenAI handler rotates to the next account
exactly on upstream statuses 429/404/403/401 (recording the error but
marking nothing rate-limited), returns every other non-2xx status to the
client verbatim, and, when every attempt in `max(pool,1)` is
rotation-eligible, returns a 429 whose message starts with
"All accounts exhausted". -/
theorem C2_dispatch_loop_contract (outcomes : Nat → UpstreamOutcome) :
    (∀ fuel attempt e status body,
      outcomes attempt = .response status body →
      (status = 429 ∨ status = 404 ∨ status = 403 ∨ status = 401) →
      dispatchLoop outcomes (fuel + 1) attempt e =
        dispatchLoop outcomes fuel (attempt + 1)
          ("HTTP " ++ toString status ++ ": " ++ body)) ∧
    (∀ fuel attempt e status body,
      outcomes attempt = .response status body →
      ¬ (200 ≤ status ∧ status < 300) →
      ¬ (status = 429 ∨ status = 404 ∨ status = 403 ∨ status = 401) →
      dispatchLoop outcomes (fuel + 1) attempt e = .httpError status body) ∧
    (∀ fuel attempt e status body,
      outcomes attempt = .response status body →
      200 ≤ status → status < 300 →
      dispatchLoop outcomes (fuel + 1) attempt e = .success status body) ∧
    (∀ pool, (∀ i, rotationEligible (outcomes i)) →
      ∃ msg, handle_chat_completions outcomes pool =
        .httpError 429 ("All accounts exhausted. Last error: " ++ msg)) := by
  refine ⟨?_, ?_, ?_, ?_⟩
  · intro fuel attempt e status body hout hrot
    have hns : ¬ (200 ≤ status ∧ status < 300) := by
      rcases hrot with h | h | h | h <;> omega
    simp [dispatchLoop, hout, hns, hrot]
  · intro fuel attempt e status body hout hns hrot
    simp [dispatchLoop, hout, hns, hrot]
  · intro fuel attempt e status body hout h1 h2
    simp [dispatchLoop, hout, h1, h2]
  · intro pool hall
    have key : ∀ fuel attempt e,
        ∃ msg, dispatchLoop outcomes fuel attempt e =
          .httpError 429 ("All accounts exhausted. Last error: " ++ msg) := by
      intro fuel
      induction fuel with
      | zero => intro attempt e; exact ⟨e, rfl⟩
      | succ n ih =>
          intro attempt e
          have h := hall attempt
          cases hout : outcomes attempt with
          | netErr msg =>
              have := ih (attempt + 1) msg
              simpa [dispatchLoop, hout] using this
          | response status body =>
              rw [hout] at h
              have hns : ¬ (200 ≤ status ∧ status < 300) := by
                rcases h with h | h | h | h <;> omega
              have := ih (attempt + 1)
                ("HTTP " ++ toString status ++ ": " ++ body)
              simp only [rotationEligible] at h
              simp only [dispatchLoop, hout, if_neg hns]
              rw [if_pos h]
              exact this
    exact key (max pool 1) 0 ""

/-- Witness for C2's amended theorem: the concrete behaviours at a 429
(rotation), a 500 (verbatim pass-through), a 200 (success) and an
all-429 pool (exhaustion). -/
theorem C2_dispatch_loop_contract_witness :
    (dispatchLoop (fun _ => .response 429 "limit") 2 0 "" =
      dispatchLoop (fun _ => .response 429 "limit") 1 1
        ("HTTP " ++ toString 429 ++ ": " ++ "limit")) ∧
    (dispatchLoop (fun _ => .response 500 "oops") 2 0 "" =
      .httpError 500 "oops") ∧
    (dispatchLoop (fun _ => .response 200 "ok") 2 0 "" =
      .success 200 "ok") ∧
    (∃ msg, handle_chat_completions (fun _ => .response 429 "limit") 2 =
      .httpError 429 ("All accounts exhausted. Last error: " ++ msg)) := by
  have h := C2_dispatch_loop_contract (fun _ => .response 429 "limit")
  have h5 := C2_dispatch_loop_contract (fun _ => .response 500 "oops")
  have h2 := C2_dispatch_loop_contract (fun _ => .response 200 "ok")
  refine ⟨?_, ?_, ?_, ?_⟩
  · exact h.1 1 0 "" 429 "limit" rfl (by omega)
  · exact h5.2.1 1 0 "" 500 "oops" rfl (by omega) (by omega)
  · exact h2.2.2.1 1 0 "" 200 "ok" rfl (by omega) (by omega)
  · exact h.2.2.2 2 (fun i => by simp [rotationEligible])

/-! ## Account store (server/src/core/services/account.rs over the
schema of server/src/core/db.rs)

The `accounts` table is modelled as a list of rows in rowid (insertion)
order; `id` is the primary key (an INSERT with a duplicate id fails),
`email` is checked for uniqueness by `add_account` itself, and
`is_current` defaults to FALSE. Columns irrelevant to the at-most-one-
current invariant (tokens, timestamps, quota, device data) are omitted. -/

/-- One row of the `accounts` table. -/
structure AccountRow where
  id : String
  email : String
  is_current : Bool
deriving DecidableEq

/-- `SELECT COUNT(*) ... WHERE is_current = 1`. -/
def countCurrent (s : List AccountRow) : Nat :=
  s.countP (fun a => a.is_current)

/-- Embedding of `add_account`: reject a duplicate email (explicit
check) or a duplicate id (primary-key violation); insert with
`is_current = FALSE`; if the table now holds exactly one row, make it
current. -/
def addAccount (s : List AccountRow) (id email : String) : List AccountRow :=
  if s.any (fun a => a.email = email) then s
  else if s.any (fun a => a.id = id) then s
  else
    let s1 := s ++ [{ id := id, email := email, is_current := false }]
    if s1.length = 1 then
      s1.map (fun a => if a.id = id then { a with is_current := true } else a)
    else s1

/-- The promotion step of `delete_account`: if no current account
remains, make the first remaining row current
(`UPDATE ... SET is_current = 1 WHERE id IN (SELECT id FROM accounts
LIMIT 1)`). -/
def promoteIfNoneCurrent (s1 : List AccountRow) : List AccountRow :=
  if s1.any (fun a => a.is_current) then s1
  else
    match s1 with
    | [] => []
    | a :: rest =>
        (a :: rest).map (fun b =>
          if b.id = a.id then { b with is_current := true } else b)

/-- Embedding of `delete_account`: error when the id is absent
(`load_account` fails first); otherwise delete the row and promote a
current row if needed. -/
def deleteAccount (s : List AccountRow) (id : String) : List AccountRow :=
  if ¬ (s.any (fun a => a.id = id) = true) then s
  else promoteIfNoneCurrent (s.filter (fun a => !(a.id = id : Bool)))

/-- Embedding of `delete_accounts`: delete each id in turn, ignoring
per-id errors. -/
def deleteAccounts (s : List AccountRow) (ids : List String) : List AccountRow :=
  ids.foldl deleteAccount s

/-- Embedding of `switch_account`: error when the id is absent;
otherwise, in one transaction, clear `is_current` everywhere and set it
on the given id. -/
def switchAccount (s : List AccountRow) (id : String) : List AccountRow :=
  if ¬ (s.any (fun a => a.id = id) = true) then s
  else
    s.map (fun a =>
      if a.id = id then { a with is_current := true }
      else { a with is_current := false })

/-- The account-store operations of the claim. -/
inductive AccountOp where
  | add (id email : String)
  | del (id : String)
  | delBatch (ids : List String)
  | switch (id : String)

/-- Apply one operation. -/
def applyAccountOp (s : List AccountRow) : AccountOp → List AccountRow
  | .add id email => addAccount s id email
  | .del id => deleteAccount s id
  | .delBatch ids => deleteAccounts s ids
  | .switch id => switchAccount s id

/-- Run a sequence of operations from the empty store. -/
def runAccountOps (ops : List AccountOp) : List AccountRow :=
  ops.foldl applyAccountOp []

/-- The inductive invariant: distinct primary keys, and exactly one
current row iff the table is non-empty. -/
def accountInvariant (s : List AccountRow) : Prop :=
  (s.map AccountRow.id).Nodup ∧
    countCurrent s = (if s.isEmpty then 0 else 1)

theorem countCurrent_cons (a : AccountRow) (l : List AccountRow) :
    countCurrent (a :: l) = countCurrent l + (if a.is_current then 1 else 0) := by
  simp [countCurrent, List.countP_cons]

theorem countCurrent_zero_of_any_false (s : List AccountRow)
    (h : s.any (fun a => a.is_current) = false) : countCurrent s = 0 := by
  induction s with
  | nil => rfl
  | cons a rest ih =>
    simp only [List.any_cons, Bool.or_eq_false_iff] at h
    rw [countCurrent_cons, ih h.2, h.1]
    simp

theorem promoted_tail_none_current (rest : List AccountRow) (aid : String)
    (hmem : ¬ (aid ∈ rest.map AccountRow.id))
    (hany : rest.any (fun r => r.is_current) = false) :
    (rest.map (fun b =>
      if b.id = aid then { b with is_current := true } else b)).any
      (fun r => r.is_current) = false := by
  induction rest with
  | nil => rfl
  | cons r rs ih =>
    simp only [List.map_cons, List.mem_cons] at hmem
    push_neg at hmem
    simp only [List.any_cons, Bool.or_eq_false_iff] at hany
    have hne : ¬ (r.id = aid) := fun hcontra => hmem.1 hcontra.symm
    simp only [List.map_cons, List.any_cons, if_neg hne, hany.1,
      Bool.false_or]
    exact ih hmem.2 hany.2

theorem promote_ids_unchanged (l : List AccountRow) (aid : String) :
    (l.map (fun b =>
      if b.id = aid then { b with is_current := true } else b)).map
      AccountRow.id = l.map AccountRow.id := by
  induction l with
  | nil => rfl
  | cons b bs ih =>
    simp only [List.map_cons, ih]
    by_cases h : b.id = aid <;> simp [h]

theorem promoteIfNoneCurrent_invariant (s1 : List AccountRow)
    (hnd : (s1.map AccountRow.id).Nodup) (hle : countCurrent s1 ≤ 1) :
    accountInvariant (promoteIfNoneCurrent s1) := by
  unfold promoteIfNoneCurrent
  cases hany : s1.any (fun a => a.is_current) with
  | true =>
      simp only [if_pos]
      refine ⟨hnd, ?_⟩
      rw [List.any_eq_true] at hany
      obtain ⟨x, hx, hxc⟩ := hany
      have hpos : 0 < countCurrent s1 :=
        List.countP_pos.mpr ⟨x, hx, hxc⟩
      have hne : ¬ (s1.isEmpty = true) := by
        cases s1 with
        | nil => cases hx
        | cons _ _ => simp
      rw [if_neg hne]
      omega
  | false =>
      simp only [Bool.false_eq_true, if_neg, if_false]
      cases s1 with
      | nil => exact ⟨by simp, by simp [countCurrent]⟩
      | cons a rest =>
          simp only [List.map_cons, List.nodup_cons] at hnd
          simp only [List.any_cons, Bool.or_eq_false_iff] at hany
          constructor
          · rw [promote_ids_unchanged]
            simp only [List.map_cons, List.nodup_cons]
            exact hnd
          · have hrest := promoted_tail_none_current rest a.id hnd.1 hany.2
            simp only [List.map_cons, if_pos rfl]
            rw [countCurrent_cons, countCurrent_zero_of_any_false _ hrest]
            simp

theorem addAccount_invariant (s : List AccountRow) (id email : String)
    (h : accountInvariant s) : accountInvariant (addAccount s id email) := by
  obtain ⟨hnd, hcnt⟩ := h
  unfold addAccount
  by_cases he : s.any (fun a => a.email = email) = true
  · simp only [if_pos he]
    exact ⟨hnd, hcnt⟩
  · rw [if_neg he]
    by_cases hi : s.any (fun a => a.id = id) = true
    · simp only [if_pos hi]
      exact ⟨hnd, hcnt⟩
    · rw [if_neg hi]
      by_cases hlen :
        (s ++ [({ id := id, email := email, is_current := false } : AccountRow)]).length = 1
      · have hs : s = [] := by
          cases s with
          | nil => rfl
          | cons x xs => simp at hlen
        subst hs
        simp only [if_pos hlen]
        exact ⟨by simp, by simp [countCurrent]⟩
      · rw [if_neg hlen]
        have hsne : ¬ (s = []) := by
          intro hs
          subst hs
          simp at hlen
        constructor
        · simp only [List.map_append, List.map_cons, List.map_nil]
          rw [List.nodup_append]
          refine ⟨hnd, by simp, ?_⟩
          intro x hx
          simp only [List.mem_singleton]
          intro hcontra
          apply hi
          rw [List.any_eq_true]
          obtain ⟨r, hr, hrid⟩ := List.mem_map.mp hx
          exact ⟨r, hr, by simp [hrid, hcontra]⟩
        · simp only [countCurrent, List.countP_append]
          simp only [countCurrent] at hcnt
          rw [hcnt, if_neg (by simpa [List.isEmpty_iff] using hsne)]
          simp [List.countP_cons, List.isEmpty_iff, hsne]

theorem deleteAccount_invariant (s : List AccountRow) (id : String)
    (h : accountInvariant s) : accountInvariant (deleteAccount s id) := by
  obtain ⟨hnd, hcnt⟩ := h
  unfold deleteAccount
  by_cases hin : s.any (fun a => a.id = id) = true
  · rw [if_neg (not_not_intro hin)]
    have hsub : (s.filter (fun a => !(a.id = id : Bool))).Sublist s :=
      List.filter_sublist s
    apply promoteIfNoneCurrent_invariant
    · exact List.Nodup.sublist (List.Sublist.map AccountRow.id hsub) hnd
    · have hle : countCurrent (s.filter (fun a => !(a.id = id : Bool))) ≤
          countCurrent s := List.Sublist.countP_le _ hsub
      have hsne : ¬ (s.isEmpty = true) := by
        cases s with
        | nil => simp at hin
        | cons _ _ => simp
      rw [hcnt, if_neg hsne] at hle
      exact hle
  · rw [if_pos hin]
    exact ⟨hnd, hcnt⟩

theorem deleteAccounts_invariant (ids : List String) :
    ∀ s, accountInvariant s → accountInvariant (deleteAccounts s ids) := by
  induction ids with
  | nil => intro s h; exact h
  | cons i is ih =>
      intro s h
      exact ih (deleteAccount s i) (deleteAccount_invariant s i h)

theorem switched_count_one (s : List AccountRow) (id : String)
    (hnd : (s.map AccountRow.id).Nodup)
    (hin : s.any (fun a => a.id = id) = true) :
    countCurrent (s.map (fun a =>
      if a.id = id then { a with is_current := true }
      else { a with is_current := false })) = 1 := by
  induction s with
  | nil => simp at hin
  | cons a rest ih =>
      simp only [List.map_cons, List.nodup_cons] at hnd
      by_cases ha : a.id = id
      · have hnone : countCurrent (rest.map (fun r =>
            if r.id = id then { r with is_current := true }
            else { r with is_current := false })) = 0 := by
          apply countCurrent_zero_of_any_false
          have hnotin : ¬ (id ∈ rest.map AccountRow.id) := ha ▸ hnd.1
          clear ih hin hnd
          induction rest with
          | nil => rfl
          | cons r rs ihr =>
              simp only [List.map_cons, List.mem_cons] at hnotin
              push_neg at hnotin
              have hrne : ¬ (r.id = id) := fun hc => hnotin.1 hc.symm
              simp only [List.map_cons, List.any_cons, if_neg hrne,
                Bool.false_or]
              exact ihr hnotin.2
        simp only [List.map_cons, if_pos ha]
        rw [countCurrent_cons, hnone]
        simp
      · have hrest : rest.any (fun r => r.id = id) = true := by
          simp only [List.any_cons] at hin
          rcases Bool.or_eq_true_iff.mp hin with h | h
          · exact absurd (by simpa using h) ha
          · exact h
        simp only [List.map_cons, if_neg ha]
        rw [countCurrent_cons, ih hnd.2 hrest]
        simp

theorem switch_ids_unchanged (s : List AccountRow) (id : String) :
    ((s.map (fun a =>
      if a.id = id then { a with is_current := true }
      else { a with is_current := false })).map AccountRow.id) =
      s.map AccountRow.id := by
  induction s with
  | nil => rfl
  | cons a rest ih =>
      simp only [List.map_cons, ih]
      by_cases h : a.id = id <;> simp [h]

theorem switchAccount_invariant (s : List AccountRow) (id : String)
    (h : accountInvariant s) : accountInvariant (switchAccount s id) := by
  obtain ⟨hnd, hcnt⟩ := h
  unfold switchAccount
  by_cases hin : s.any (fun a => a.id = id) = true
  · rw [if_neg (not_not_intro hin)]
    constructor
    · rw [switch_ids_unchanged]
      exact hnd
    · have hsne : ¬ (s = []) := by
        intro hs
        subst hs
        simp at hin
      rw [switched_count_one s id hnd hin]
      cases s with
      | nil => exact absurd rfl hsne
      | cons _ _ => simp
  · rw [if_pos hin]
    exact ⟨hnd, hcnt⟩

theorem applyAccountOp_invariant (s : List AccountRow) (op : AccountOp)
    (h : accountInvariant s) : accountInvariant (applyAccountOp s op) := by
  cases op with
  | add id email => exact addAccount_invariant s id email h
  | del id => exact deleteAccount_invariant s id h
  | delBatch ids => exact deleteAccounts_invariant ids s h
  | switch id => exact switchAccount_invariant s id h

theorem runAccountOps_invariant (ops : List AccountOp) :
    accountInvariant (runAccountOps ops) := by
  have key : ∀ s, accountInvariant s → accountInvariant (ops.foldl applyAccountOp s) := by
    induction ops with
    | nil => intro s h; exact h
    | cons op rest ih =>
        intro s h
        exact ih _ (applyAccountOp_invariant s op h)
  exact key [] ⟨by simp, by simp [countCurrent]⟩

/-- C6: after any sequence of add / delete (single or batch) / switch
operations starting from the empty store, the number of rows with
`is_current = true` is exactly one when the account set is non-empty and
zero when it is empty. -/
theorem C6_at_most_one_current (ops : List AccountOp) :
    countCurrent (runAccountOps ops) =
      (if (runAccountOps ops).isEmpty then 0 else 1) :=
  (runAccountOps_invariant ops).2

/-! ## OpenAI SSE streaming transformer
(src-tauri/src/proxy/mappers/openai/streaming.rs,
`create_openai_sse_stream`)

The transformer is modelled as a fold over the arriving byte chunks
threading the line buffer: each chunk is appended to the buffer, every
complete `\n`-terminated line is processed, the trailing partial line
stays buffered, and after upstream EOF a final `[DONE]` event is
emitted. The per-event `id` (fresh UUID) and `created` (timestamp)
fields are outside the model: the claim compares event sequences up to
them. -/

/-- One emitted surface event, up to the generated id/timestamp. -/
inductive SseEvent where
  | chunk (content : String) (finish : Option String) (model : String)
  | done
deriving DecidableEq

/-- `line.trim_start_matches("data: ")`: strip every leading repetition
of the `data: ` tag. -/
def stripDataTags : List Char → List Char
  | 'd' :: 'a' :: 't' :: 'a' :: ':' :: ' ' :: rest => stripDataTags rest
  | cs => cs

/-- Text and image-markdown contribution of one `parts[*]` element. -/
def partText (p : Json) : String :=
  (((p.lookup "text").bind Json.asStr).getD "") ++
    (match p.lookup "inlineData" with
     | some img =>
         let mime := ((img.lookup "mimeType").bind Json.asStr).getD "image/png"
         let data := ((img.lookup "data").bind Json.asStr).getD ""
         if ¬ (data = "") then "![image](data:" ++ mime ++ ";base64," ++ data ++ ")"
         else ""
     | none => "")

/-- Process one complete line of the upstream stream: require the
`data: ` tag, skip `[DONE]` frames and unparsable JSON, unwrap a
`response` wrapper, concatenate text/image parts of
`candidates[0].content.parts`, skip empty deltas without a
`finishReason`, and map the finish reason through `streamFinishReason`. -/
def processLine (pj : String → Option Json) (model : String)
    (lineChars : List Char) : Option SseEvent :=
  let line := trimChars lineChars
  if line = [] then none
  else if listStarts "data: ".data line then
    let json_part := trimChars (stripDataTags line)
    if json_part = "[DONE]".data then none
    else
      match pj (String.mk json_part) with
      | none => none
      | some j =>
          let actual := (j.lookup "response").getD j
          let candidate := ((actual.lookup "candidates").bind Json.asArr).bind
            (·.get? 0)
          let parts := ((candidate.bind (·.lookup "content")).bind
            (·.lookup "parts")).bind Json.asArr
          let content_out :=
            match parts with
            | some l => String.join (l.map partText)
            | none => ""
          let finishPresent := (candidate.bind (·.lookup "finishReason")).isSome
          if content_out = "" ∧ ¬ finishPresent then none
          else
            some (.chunk content_out
              (((candidate.bind (·.lookup "finishReason")).bind
                Json.asStr).map streamFinishReason)
              model)
  else none

/-- Split off the first complete line (terminator included) of the
buffer, mirroring `buffer.iter().position(b == \n)` +
`split_to(pos + 1)`. -/
def breakAtNl : List Char → Option (List Char × List Char)
  | [] => none
  | c :: cs =>
      if c = '\n' then some ([c], cs)
      else
        match breakAtNl cs with
        | some (l, r) => some (c :: l, r)
        | none => none

theorem breakAtNl_some (cs l r : List Char) (h : breakAtNl cs = some (l, r)) :
    cs = l ++ r ∧ r.length < cs.length := by
  induction cs generalizing l r with
  | nil => simp [breakAtNl] at h
  | cons c rest ih =>
      simp only [breakAtNl] at h
      by_cases hc : c = '\n'
      · rw [if_pos hc] at h
        obtain ⟨hl, hr⟩ := Prod.mk.injEq .. ▸ (Option.some.injEq .. ▸ h)
        subst hl
        subst hr
        simp
      · rw [if_neg hc] at h
        cases hrec : breakAtNl rest with
        | none => rw [hrec] at h; cases h
        | some p =>
            obtain ⟨l2, r2⟩ := p
            rw [hrec] at h
            obtain ⟨hl, hr⟩ := Prod.mk.injEq .. ▸ (Option.some.injEq .. ▸ h)
            obtain ⟨h1, h2⟩ := ih l2 r2 hrec
            subst hl
            subst hr
            constructor
            · simp [h1]
            · simp
              omega

theorem breakAtNl_append_some (y : List Char) :
    ∀ x l r, breakAtNl x = some (l, r) →
      breakAtNl (x ++ y) = some (l, r ++ y) := by
  intro x
  induction x with
  | nil => intro l r h; simp [breakAtNl] at h
  | cons c rest ih =>
      intro l r h
      by_cases hc : c = '\n'
      · simp only [breakAtNl, if_pos hc, Option.some.injEq, Prod.mk.injEq] at h
        obtain ⟨h1, h2⟩ := h
        subst h1
        subst h2
        simp [List.cons_append, breakAtNl, hc]
      · cases hrec : breakAtNl rest with
        | none => simp [breakAtNl, hc, hrec] at h
        | some p =>
            obtain ⟨l2, r2⟩ := p
            simp only [breakAtNl, if_neg hc, hrec, Option.some.injEq,
              Prod.mk.injEq] at h
            obtain ⟨h1, h2⟩ := h
            subst h1
            subst h2
            have hy := ih l2 r2 hrec
            simp [List.cons_append, breakAtNl, hc, hy]

theorem breakAtNl_append_none (y : List Char) :
    ∀ x, breakAtNl x = none →
      breakAtNl (x ++ y) = (breakAtNl y).map (fun p => (x ++ p.1, p.2)) := by
  intro x
  induction x with
  | nil =>
      intro _
      simp only [List.nil_append]
      cases hy : breakAtNl y with
      | none => simp [hy]
      | some p => obtain ⟨l, r⟩ := p; simp [hy]
  | cons c rest ih =>
      intro h
      by_cases hc : c = '\n'
      · simp [breakAtNl, hc] at h
      · cases hrec : breakAtNl rest with
        | some p => obtain ⟨l2, r2⟩ := p; simp [breakAtNl, hc, hrec] at h
        | none =>
            have hrw := ih hrec
            cases hy : breakAtNl y with
            | none => simp [List.cons_append, breakAtNl, hc, hrw, hy]
            | some p =>
                obtain ⟨l, r⟩ := p
                simp [List.cons_append, breakAtNl, hc, hrw, hy]

/-- Drain every complete line from the buffer, collecting the emitted
events; return the events and the remaining (newline-free) buffer. -/
def drainBuffer (pj : String → Option Json) (model : String)
    (cs : List Char) : List SseEvent × List Char :=
  match h : breakAtNl cs with
  | none => ([], cs)
  | some (l, r) =>
      ((processLine pj model l).toList ++ (drainBuffer pj model r).1,
       (drainBuffer pj model r).2)
termination_by cs.length
decreasing_by
  all_goals exact (breakAtNl_some cs l r h).2

theorem drainBuffer_none (pj : String → Option Json) (model : String)
    (cs : List Char) (h : breakAtNl cs = none) :
    drainBuffer pj model cs = ([], cs) := by
  rw [drainBuffer.eq_def]
  split
  · rfl
  · rename_i l r heq
    rw [h] at heq
    cases heq

theorem drainBuffer_some (pj : String → Option Json) (model : String)
    (cs l r : List Char) (h : breakAtNl cs = some (l, r)) :
    drainBuffer pj model cs =
      ((processLine pj model l).toList ++ (drainBuffer pj model r).1,
       (drainBuffer pj model r).2) := by
  rw [drainBuffer.eq_def]
  split
  · rename_i heq
    rw [h] at heq
    cases heq
  · rename_i l2 r2 heq
    rw [h] at heq
    simp only [Option.some.injEq, Prod.mk.injEq] at heq
    obtain ⟨h1, h2⟩ := heq
    subst h1
    subst h2
    rfl

theorem drainBuffer_leftover (pj : String → Option Json) (model : String) :
    ∀ cs, breakAtNl (drainBuffer pj model cs).2 = none := by
  have key : ∀ n cs, List.length cs ≤ n →
      breakAtNl (drainBuffer pj model cs).2 = none := by
    intro n
    induction n with
    | zero =>
        intro cs hle
        have hnil : cs = [] := List.eq_nil_of_length_eq_zero (by omega)
        subst hnil
        rw [drainBuffer_none pj model [] rfl]
        rfl
    | succ n ih =>
        intro cs hle
        cases h : breakAtNl cs with
        | none => rw [drainBuffer_none pj model cs h]; exact h
        | some p =>
            obtain ⟨l, r⟩ := p
            rw [drainBuffer_some pj model cs l r h]
            have hlen := (breakAtNl_some cs l r h).2
            exact ih r (by omega)
  intro cs
  exact key cs.length cs le_rfl

theorem drainBuffer_append (pj : String → Option Json) (model : String) :
    ∀ x y, drainBuffer pj model (x ++ y) =
      ((drainBuffer pj model x).1 ++
        (drainBuffer pj model ((drainBuffer pj model x).2 ++ y)).1,
       (drainBuffer pj model ((drainBuffer pj model x).2 ++ y)).2) := by
  have key : ∀ n x, List.length x ≤ n → ∀ y,
      drainBuffer pj model (x ++ y) =
        ((drainBuffer pj model x).1 ++
          (drainBuffer pj model ((drainBuffer pj model x).2 ++ y)).1,
         (drainBuffer pj model ((drainBuffer pj model x).2 ++ y)).2) := by
    intro n
    induction n with
    | zero =>
        intro x hle y
        have hnil : x = [] := List.eq_nil_of_length_eq_zero (by omega)
        subst hnil
        rw [drainBuffer_none pj model [] rfl]
        simp
    | succ n ih =>
        intro x hle y
        cases h : breakAtNl x with
        | none =>
            rw [drainBuffer_none pj model x h]
            simp
        | some p =>
            obtain ⟨l, r⟩ := p
            have hx := breakAtNl_append_some y x l r h
            rw [drainBuffer_some pj model (x ++ y) l (r ++ y) hx,
              drainBuffer_some pj model x l r h]
            have hlen := (breakAtNl_some x l r h).2
            rw [ih r (by omega) y]
            simp
  intro x y
  exact key x.length x le_rfl y

/-- The chunk-arrival loop: extend the buffer with each chunk and drain
complete lines. -/
def sseRunAux (pj : String → Option Json) (model : String) :
    List Char → List (List Char) → List SseEvent
  | _, [] => []
  | buf, c :: cs =>
      (drainBuffer pj model (buf ++ c)).1 ++
        sseRunAux pj model (drainBuffer pj model (buf ++ c)).2 cs

/-- Embedding of `create_openai_sse_stream`: start from an empty buffer,
process the chunks, and emit the final `[DONE]` after EOF. -/
def create_openai_sse_stream (pj : String → Option Json) (model : String)
    (chunks : List (List Char)) : List SseEvent :=
  sseRunAux pj model [] chunks ++ [.done]

theorem sseRunAux_join (pj : String → Option Json) (model : String) :
    ∀ chunks buf, breakAtNl buf = none →
      sseRunAux pj model buf chunks =
        (drainBuffer pj model (buf ++ chunks.join)).1 := by
  intro chunks
  induction chunks with
  | nil =>
      intro buf hbuf
      rw [sseRunAux]
      simp only [List.join_nil, List.append_nil]
      rw [drainBuffer_none pj model buf hbuf]
  | cons c cs ih =>
      intro buf hbuf
      rw [sseRunAux]
      rw [ih (drainBuffer pj model (buf ++ c)).2
        (drainBuffer_leftover pj model (buf ++ c))]
      have := drainBuffer_append pj model (buf ++ c) cs.join
      simp only [List.join_cons, ← List.append_assoc]
      rw [this]

/-- C9: feeding the upstream bytes to the OpenAI streaming transformer
in any partition of chunks produces the same sequence of emitted surface
events (up to the generated per-chunk id and timestamp, which are
outside the model) as feeding all the bytes in one chunk. -/
theorem C9_sse_chunking_invariance (pj : String → Option Json)
    (model : String) (chunks : List (List Char)) :
    create_openai_sse_stream pj model chunks =
      create_openai_sse_stream pj model [chunks.join] := by
  unfold create_openai_sse_stream
  rw [sseRunAux_join pj model chunks [] rfl,
    sseRunAux_join pj model [chunks.join] [] rfl]
  simp

/-! ## Warm-up scheduler (server/src/core/scheduler.rs, one `start_scheduler`
pass per 10-minute tick)

A pass observes, per account, the freshly fetched quota models; for each
model at exactly 100% it consults the `WARM_HISTORY` map under the key
`"email:model:100"`, enqueues a warm-up for whitelisted (remapped)
models at most once per cycle, clears the entry when the percentage
drops below 100, and finally sweeps history entries older than 24 hours.
The pass scan time (`now_ts`) and the end-of-pass sweep time are both
`Utc::now()` readings and are modelled as separate inputs. -/

/-- One model of the fetched quota. -/
structure ModelQuota where
  name : String
  percentage : Int

/-- One account as the scheduler sees it (quota already fetched). -/
structure SchedAccount where
  email : String
  access_token : String
  project_id : Option String
  models : List ModelQuota

/-- One enqueued warm-up task. -/
structure WarmupTask where
  email : String
  model : String
  access_token : String
  project_id : String
  pct : Int
deriving DecidableEq

/-- One scheduler pass: the `warmup_enabled` gate, the scan timestamp,
the end-of-pass sweep timestamp, and the accounts with their quota. -/
structure Pass where
  enabled : Bool
  now : Int
  sweepNow : Int
  accounts : List SchedAccount

/-- The `WARM_HISTORY` key `"email:model:100"`. -/
def historyKey (email name : String) : String :=
  email ++ ":" ++ name ++ ":100"

/-- The warm-up model remapping (`gemini-2.5-flash → gemini-3-flash`). -/
def mapModelName (name : String) : String :=
  if name = "gemini-2.5-flash" then "gemini-3-flash" else name

/-- The strict warm-up whitelist. -/
def warmupWhitelist (m : String) : Bool :=
  (m = "gemini-3-flash" : Bool) || (m = "claude-sonnet-4-5" : Bool) ||
    (m = "gemini-3-pro-high" : Bool) || (m = "gemini-3-pro-image" : Bool)

/-- `WARM_HISTORY` lookup (`HashMap::get`). -/
def histLookup : List (String × Int) → String → Option Int
  | [], _ => none
  | (k, v) :: rest, key => if k = key then some v else histLookup rest key

/-- `HashMap::insert`. -/
def histInsert (key : String) (ts : Int) (h : List (String × Int)) :
    List (String × Int) :=
  (key, ts) :: h.filter (fun kv => !(kv.1 = key : Bool))

/-- `HashMap::remove`. -/
def histRemove (key : String) (h : List (String × Int)) :
    List (String × Int) :=
  h.filter (fun kv => !(kv.1 = key : Bool))

/-- `history.retain(|_, ts| ts > cutoff)`. -/
def histRetain (cutoff : Int) (h : List (String × Int)) :
    List (String × Int) :=
  h.filter (fun kv => cutoff < kv.2)

/-- The per-model body of the scan loop. -/
def scanModelStep (email token proj : String) (now : Int)
    (st : List (String × Int) × List WarmupTask) (m : ModelQuota) :
    List (String × Int) × List WarmupTask :=
  let key := historyKey email m.name
  if m.percentage = 100 then
    if (histLookup st.1 key).isSome then st
    else
      let hist2 := histInsert key now st.1
      let ping := mapModelName m.name
      if warmupWhitelist ping then
        let task : WarmupTask :=
          { email := email, model := ping, access_token := token,
            project_id := proj, pct := m.percentage }
        (hist2, st.2 ++ [task])
      else (hist2, st.2)
  else if m.percentage < 100 then (histRemove key st.1, st.2)
  else st

/-- The per-account body of the scan loop (with the default project id). -/
def scanAccountStep (now : Int)
    (st : List (String × Int) × List WarmupTask) (a : SchedAccount) :
    List (String × Int) × List WarmupTask :=
  a.models.foldl
    (scanModelStep a.email a.access_token
      (a.project_id.getD "bamboo-precept-lgxtn") now) st

/-- One scheduler pass: gate on `warmup_enabled` and a non-empty account
list, scan every account's models, then sweep entries older than 24 h. -/
def runPass (hist : List (String × Int)) (p : Pass) :
    List (String × Int) × List WarmupTask :=
  if ¬ (p.enabled = true) then (hist, [])
  else if p.accounts.isEmpty then (hist, [])
  else
    let st := p.accounts.foldl (scanAccountStep p.now) (hist, [])
    (histRetain (p.sweepNow - 86400) st.1, st.2)

/-- A sequence of passes, accumulating all enqueued warm-up tasks. -/
def runPasses (hist : List (String × Int)) (ps : List Pass) :
    List (String × Int) × List WarmupTask :=
  ps.foldl (fun st p =>
    ((runPass st.1 p).1, st.2 ++ (runPass st.1 p).2)) (hist, [])

/-- A pass observing exactly one (email, model) pair. -/
def mkUniformPass (email name tok proj : String) (pct : Int) (t s : Int) :
    Pass :=
  let m : ModelQuota := { name := name, percentage := pct }
  let a : SchedAccount :=
    { email := email, access_token := tok, project_id := some proj,
      models := [m] }
  { enabled := true, now := t, sweepNow := s, accounts := [a] }

/-- C8 counterexample: with the fixed 600-second pass cadence and one
whitelisted model whose quota stays at exactly 100% for 146 consecutive
passes (just over 24 hours), the 24-hour history sweep at pass 144
evicts the entry recorded at pass 0, so pass 145 enqueues a second
warm-up for the same uninterrupted 100% cycle: the run enqueues two
tasks, not exactly one. -/
theorem C8_warmup_counterexample :
    ((runPasses [] ((List.range 146).map (fun i =>
        mkUniformPass "e" "claude-sonnet-4-5" "tok" "proj" 100
          (600 * (i : Int)) (600 * (i : Int))))).2).length = 2 := by
  set_option maxRecDepth 20000 in decide

theorem histLookup_retain_remove (c : Int) (key : String) :
    ∀ h : List (String × Int),
      histLookup (histRetain c (histRemove key h)) key = none := by
  intro h
  induction h with
  | nil => rfl
  | cons kv rest ih =>
      obtain ⟨k, v⟩ := kv
      by_cases hk : k = key
      · simpa [histRemove, histRetain, List.filter, hk] using ih
      · by_cases hv : c < v
        · simpa [histRemove, histRetain, List.filter, histLookup, hk, hv]
            using ih
        · simpa [histRemove, histRetain, List.filter, histLookup, hk, hv]
            using ih

theorem runPass_first (email name tok proj : String) (t s : Int)
    (hist : List (String × Int))
    (hwhite : warmupWhitelist (mapModelName name) = true)
    (hnone : histLookup hist (historyKey email name) = none) :
    runPass hist (mkUniformPass email name tok proj 100 t s) =
      (histRetain (s - 86400)
        (histInsert (historyKey email name) t hist),
       [{ email := email, model := mapModelName name, access_token := tok,
          project_id := proj, pct := 100 }]) := by
  simp [runPass, mkUniformPass, scanAccountStep, scanModelStep, hnone, hwhite]

theorem runPass_skip (email name tok proj : String) (t0 t s : Int)
    (hts : s - 86400 < t0) :
    runPass [(historyKey email name, t0)]
        (mkUniformPass email name tok proj 100 t s) =
      ([(historyKey email name, t0)], []) := by
  simp [runPass, mkUniformPass, scanAccountStep, scanModelStep, histLookup,
    histRetain, List.filter, hts]

/-- C8 amended: for a fixed (email, model) pair with a whitelisted
(remapped) model, a run of consecutive scheduler passes that all observe
the quota at exactly 100% enqueues exactly one warm-up task **provided
every pass's sweep time stays within 24 hours of the first pass's scan
time** (the 24-hour history sweep otherwise evicts the entry and the
pair warms up again within the same 100% cycle, as the counterexample
shows); a pass observing the percentage below 100 clears the history
entry; and from a cleared history a 100% pass enqueues the warm-up. -/
theorem C8_warmup_at_most_once_per_window (email name tok proj : String)
    (t0 s0 : Int) (rest : List (Int × Int))
    (hwhite : warmupWhitelist (mapModelName name) = true)
    (h0 : s0 - 86400 < t0)
    (hrest : ∀ p ∈ rest, p.2 - 86400 < t0) :
    ((runPasses [] (((t0, s0) :: rest).map
        (fun p => mkUniformPass email name tok proj 100 p.1 p.2))).2).length
      = 1 ∧
    (∀ (hist : List (String × Int)) (t s pct : Int), pct < 100 →
      histLookup (runPass hist (mkUniformPass email name tok proj pct t s)).1
        (historyKey email name) = none) ∧
    (∀ (hist : List (String × Int)) (t s : Int),
      histLookup hist (historyKey email name) = none →
      (runPass hist (mkUniformPass email name tok proj 100 t s)).2 =
        [{ email := email, model := mapModelName name, access_token := tok,
           project_id := proj, pct := 100 }]) := by
  refine ⟨?_, ?_, ?_⟩
  · have hfold : ∀ ps : List (Int × Int), (∀ p ∈ ps, p.2 - 86400 < t0) →
        ∀ acc : List WarmupTask,
        List.foldl (fun st p =>
            ((runPass st.1 p).1, st.2 ++ (runPass st.1 p).2))
          ([(historyKey email name, t0)], acc)
          (ps.map (fun p => mkUniformPass email name tok proj 100 p.1 p.2)) =
          ([(historyKey email name, t0)], acc) := by
      intro ps
      induction ps with
      | nil => intro _ acc; rfl
      | cons p pr ih =>
          intro hps acc
          have hp := hps p (by simp)
          simp only [List.map_cons, List.foldl_cons,
            runPass_skip email name tok proj t0 p.1 p.2 hp, List.append_nil]
          exact ih (fun q hq => hps q (by simp [hq])) acc
    unfold runPasses
    simp only [List.map_cons, List.foldl_cons]
    rw [runPass_first email name tok proj t0 s0 [] hwhite rfl]
    have hretain : histRetain (s0 - 86400)
        (histInsert (historyKey email name) t0 []) =
        [(historyKey email name, t0)] := by
      simp [histRetain, histInsert, List.filter, h0]
    rw [hretain]
    rw [hfold rest hrest]
    rfl
  · intro hist t s pct hlt
    have hne : ¬ (pct = 100) := by omega
    simp [runPass, mkUniformPass, scanAccountStep, scanModelStep, hne, hlt,
      histLookup_retain_remove]
  · intro hist t s hnone
    rw [runPass_first email name tok proj t s hist hwhite hnone]

/-- Witness for C8's amended theorem at concrete inputs: two passes
600 s apart at 100% enqueue one task; a below-100 pass clears the
entry; a 100% pass from empty history enqueues the task. -/
theorem C8_warmup_at_most_once_per_window_witness :
    ((runPasses [] ([((0 : Int), (0 : Int)), (600, 600)].map
        (fun p => mkUniformPass "e" "claude-sonnet-4-5" "tok" "proj" 100
          p.1 p.2))).2).length = 1 ∧
    histLookup (runPass [(historyKey "e" "claude-sonnet-4-5", 0)]
        (mkUniformPass "e" "claude-sonnet-4-5" "tok" "proj" 50 600 600)).1
      (historyKey "e" "claude-sonnet-4-5") = none ∧
    (runPass [] (mkUniformPass "e" "claude-sonnet-4-5" "tok" "proj" 100 0 0)).2 =
      [{ email := "e", model := mapModelName "claude-sonnet-4-5",
         access_token := "tok", project_id := "proj", pct := 100 }] := by
  have h := C8_warmup_at_most_once_per_window "e" "claude-sonnet-4-5" "tok"
    "proj" 0 0 [(600, 600)] (by decide) (by decide) (by decide)
  exact ⟨h.1, h.2.1 [(historyKey "e" "claude-sonnet-4-5", 0)] 600 600 50
    (by decide), h.2.2 [] 0 0 rfl⟩

/-! ## Token manager (server/src/proxy/token_manager.rs, `get_token`)

The manager state (tokens map, round-robin counter, last-used tuple,
sticky session map) is explicit; the rate-limit tracker, OAuth token
refresh and project resolver are oracles in `TMEnv` (they are separate
components or network calls). `tokio::time::sleep` calls are recorded in
an event list. The `last_used` `Instant` is modelled by the elapsed
seconds at call time. -/

/-- In-memory `ProxyToken` (the JSON `account_path` is `None` for
DB-loaded accounts and is omitted). -/
structure ProxyToken where
  account_id : String
  access_token : String
  refresh_token : String
  expires_in : Int
  timestamp : Int
  email : String
  project_id : Option String
  subscription_tier : Option String
  disabled : Bool
deriving DecidableEq

/-- Modelled from the spec: the recognized scheduling modes
`cache_first | balance | performance_first` (the `sticky_config.rs`
module itself is not among the provided sources; `get_token` only
compares modes for equality). -/
inductive SchedulingMode where
  | CacheFirst
  | Balance
  | PerformanceFirst
deriving DecidableEq

/-- Modelled from the spec: the scheduling configuration
`{mode, max_wait_seconds}`. -/
structure StickySessionConfig where
  mode : SchedulingMode
  max_wait_seconds : Nat

/-- The oracles `get_token` interacts with: the rate-limit tracker
(remaining wait and limited flag per account id), the token refresher,
the project resolver, and the current time. -/
structure TMEnv where
  wait : String → Nat
  limited : String → Bool
  refresh : String → Except String (String × Int)
  fetchProject : String → Except String String
  now : Int

/-- The mutable manager state touched by `get_token`. -/
structure TMState where
  tokens : List ProxyToken
  currentIndex : Nat
  lastUsed : Option (String × Nat)
  sessions : List (String × String)

/-- The result of one `get_token` call: the returned tuple or error, the
final manager state, and the recorded sleeps (seconds). -/
structure GetTokenResult where
  result : Except String (String × String × String × String)
  state : TMState
  sleeps : List Nat

/-- Tier priority: ULTRA 0 < PRO 1 < FREE 2 < unknown 3. -/
def tierPriority : Option String → Nat
  | some "ULTRA" => 0
  | some "PRO" => 1
  | some "FREE" => 2
  | _ => 3

/-- Stable insertion by tier priority (models the stable
`Vec::sort_by`). -/
def insertByPriority (x : ProxyToken) : List ProxyToken → List ProxyToken
  | [] => [x]
  | y :: ys =>
      if tierPriority y.subscription_tier ≤ tierPriority x.subscription_tier then
        y :: insertByPriority x ys
      else x :: y :: ys

/-- The sorted snapshot. -/
def sortByTier : List ProxyToken → List ProxyToken
  | [] => []
  | x :: xs => insertByPriority x (sortByTier xs)

/-- `tokens_snapshot.iter().find(|t| t.account_id == id)`. -/
def findToken (l : List ProxyToken) (aid : String) : Option ProxyToken :=
  l.find? (fun t => (t.account_id = aid : Bool))

/-- `session_accounts` lookup. -/
def sessLookup : List (String × String) → String → Option String
  | [], _ => none
  | (k, v) :: rest, key => if k = key then some v else sessLookup rest key

/-- `session_accounts.remove(sid)`. -/
def sessRemove (sid : String) (s : List (String × String)) :
    List (String × String) :=
  s.filter (fun kv => !(kv.1 = sid : Bool))

/-- `session_accounts.insert(sid, aid)`. -/
def sessInsert (sid aid : String) (s : List (String × String)) :
    List (String × String) :=
  (sid, aid) :: s.filter (fun kv => !(kv.1 = sid : Bool))

/-- Update one token in the in-memory map. -/
def updateToken (tokens : List ProxyToken) (aid : String)
    (f : ProxyToken → ProxyToken) : List ProxyToken :=
  tokens.map (fun t => if t.account_id = aid then f t else t)

/-- `self.tokens.remove(account_id)` (after `disable_account`). -/
def removeToken (tokens : List ProxyToken) (aid : String) : List ProxyToken :=
  tokens.filter (fun t => !(t.account_id = aid : Bool))

/-- Mode A, the sticky-session branch: on the first non-rotating attempt
with a session id and a non-PerformanceFirst mode, look up the binding;
a rate-limited binding is either waited for (CacheFirst, wait within
`max_wait_seconds` — the wait is recorded) or dropped; an unlimited and
unattempted binding is reused. Returns the target (if any), the state,
and the recorded sleep. -/
def stickyPhase (env : TMEnv) (cfg : StickySessionConfig) (rotate : Bool)
    (session_id : Option String) (sorted : List ProxyToken)
    (attempted : List String) (st : TMState) :
    Option ProxyToken × TMState × Option Nat :=
  if rotate = false ∧ session_id.isSome ∧ ¬ (cfg.mode = .PerformanceFirst) then
    match session_id with
    | none => (none, st, none)
    | some sid =>
        match sessLookup st.sessions sid with
        | none => (none, st, none)
        | some bound_id =>
            let reset_sec := env.wait bound_id
            if 0 < reset_sec then
              if cfg.mode = .CacheFirst ∧ reset_sec ≤ cfg.max_wait_seconds then
                (findToken sorted bound_id, st, some reset_sec)
              else
                (none, { st with sessions := sessRemove sid st.sessions }, none)
            else if ¬ (attempted.contains bound_id = true) then
              (findToken sorted bound_id, st, none)
            else (none, st, none)
  else (none, st, none)

/-- The round-robin scan from `start`: skip attempted or rate-limited
candidates, take the first remaining one. -/
def rrScan (limited : String → Bool) (sorted : List ProxyToken)
    (total : Nat) (attempted : List String) (start : Nat) :
    Nat → Nat → Option ProxyToken
  | _, 0 => none
  | offset, fuel + 1 =>
      match sorted.get? ((start + offset) % total) with
      | none => none
      | some cand =>
          if (attempted.contains cand.account_id || limited cand.account_id) = true then
            rrScan limited sorted total attempted start (offset + 1) fuel
          else some cand

/-- Mode B: the atomic 60-second last-used reuse (no rate-limit check),
falling back to round-robin which also updates `last_used` and records
the sticky binding. -/
def modeBPhase (env : TMEnv) (cfg : StickySessionConfig)
    (session_id : Option String) (sorted : List ProxyToken) (total : Nat)
    (attempted : List String) (st : TMState) : Option ProxyToken × TMState :=
  let fromLast :=
    match st.lastUsed with
    | some (aid, elapsed) =>
        if elapsed < 60 ∧ ¬ (attempted.contains aid = true) then
          findToken sorted aid
        else none
    | none => none
  match fromLast with
  | some t => (some t, st)
  | none =>
      let start_idx := st.currentIndex % total
      let st1 := { st with currentIndex := st.currentIndex + 1 }
      match rrScan env.limited sorted total attempted start_idx 0 total with
      | none => (none, st1)
      | some cand =>
          let st2 := { st1 with lastUsed := some (cand.account_id, 0) }
          let st3 :=
            match session_id with
            | some sid =>
                if ¬ (cfg.mode = .PerformanceFirst) then
                  { st2 with sessions := sessInsert sid cand.account_id st2.sessions }
                else st2
            | none => st2
          (some cand, st3)

/-- Mode C: plain round-robin (rotating attempts), no last-used or
session updates. -/
def modeCPhase (env : TMEnv) (sorted : List ProxyToken) (total : Nat)
    (attempted : List String) (st : TMState) : Option ProxyToken × TMState :=
  let start_idx := st.currentIndex % total
  let st1 := { st with currentIndex := st.currentIndex + 1 }
  (rrScan env.limited sorted total attempted start_idx 0 total, st1)

/-- The pool-exhausted error with the minimum remaining wait
(`get_reset_seconds` yields a value only for positive waits; default
60). -/
def minWaitError (env : TMEnv) (sorted : List ProxyToken) : String :=
  let waits := sorted.filterMap (fun t =>
    if 0 < env.wait t.account_id then some (env.wait t.account_id) else none)
  "All accounts are currently limited. Please wait " ++
    toString (waits.minimum?.getD 60) ++ "s."

/-- The outcome of the refresh/project phase for a chosen candidate. -/
inductive StepOutcome where
  | done (tok pid em aid : String) (st : TMState)
  | next (last_error : String) (st : TMState)

/-- The refresh-and-resolve tail of one attempt: refresh the access
token when within 300 s of expiry (an `invalid_grant` failure disables
the account and drops it from memory; any refresh failure retries the
loop), then resolve the project id when missing (a resolver failure
retries the loop). -/
def finishPhase (env : TMEnv) (token : ProxyToken) (st : TMState) :
    StepOutcome :=
  let refreshed : Except String (ProxyToken × TMState) :=
    if token.timestamp - 300 ≤ env.now then
      match env.refresh token.refresh_token with
      | .ok tr =>
          let token2 : ProxyToken :=
            { token with
              access_token := tr.1, expires_in := tr.2,
              timestamp := env.now + tr.2 }
          let st2 : TMState :=
            { st with
              tokens := (updateToken st.tokens token.account_id (fun t =>
                { t with
                  access_token := tr.1, expires_in := tr.2,
                  timestamp := env.now + tr.2 })) }
          .ok (token2, st2)
      | .error e => .error e
    else .ok (token, st)
  match refreshed with
  | .error e =>
      let st2 :=
        if strContains e "invalid_grant" = true then
          { st with tokens := removeToken st.tokens token.account_id }
        else st
      .next ("Token refresh failed: " ++ e) st2
  | .ok (token2, st2) =>
      match token2.project_id with
      | some pid => .done token2.access_token pid token2.email token2.account_id st2
      | none =>
          match env.fetchProject token2.access_token with
          | .ok pid =>
              let st3 : TMState :=
                { st2 with
                  tokens := (updateToken st2.tokens token2.account_id
                    (fun t => { t with project_id := some pid })) }
              .done token2.access_token pid token2.email token2.account_id st3
          | .error e => .next ("Failed to fetch project_id: " ++ e) st2

/-- The attempt loop of `get_token` (`for attempt in 0..total`), with
the fuel counting the remaining attempts. -/
def getTokenLoop (env : TMEnv) (cfg : StickySessionConfig)
    (quota_group : String) (force_rotate : Bool)
    (session_id : Option String) (sorted : List ProxyToken) (total : Nat) :
    Nat → Nat → TMState → List String → Option String → List Nat →
      GetTokenResult
  | 0, _, st, _, last_error, sleeps =>
      ⟨.error (last_error.getD "All accounts failed"), st, sleeps⟩
  | fuel + 1, attempt, st, attempted, last_error, sleeps =>
      let rotate := force_rotate || decide (0 < attempt)
      let sres := stickyPhase env cfg rotate session_id sorted attempted st
      let sleeps1 :=
        match sres.2.2 with
        | some w => sleeps ++ [w]
        | none => sleeps
      let afterB : Option ProxyToken × TMState :=
        if sres.1.isNone ∧ rotate = false ∧ ¬ (quota_group = "image_gen") then
          modeBPhase env cfg session_id sorted total attempted sres.2.1
        else if sres.1.isNone then
          modeCPhase env sorted total attempted sres.2.1
        else (sres.1, sres.2.1)
      match afterB.1 with
      | none => ⟨.error (minWaitError env sorted), afterB.2, sleeps1⟩
      | some token =>
          match finishPhase env token afterB.2 with
          | .done tok pid em aid st3 => ⟨.ok (tok, pid, em, aid), st3, sleeps1⟩
          | .next err st3 =>
              getTokenLoop env cfg quota_group force_rotate session_id sorted
                total fuel (attempt + 1) st3
                (attempted ++ [token.account_id]) (some err) sleeps1

/-- Embedding of `get_token`: snapshot and sort the pool, fail on an
empty pool, then run up to `total` attempts. -/
def get_token (env : TMEnv) (cfg : StickySessionConfig) (st : TMState)
    (quota_group : String) (force_rotate : Bool)
    (session_id : Option String) : GetTokenResult :=
  let sorted := sortByTier st.tokens
  let total := sorted.length
  if total = 0 then ⟨.error "Token pool is empty", st, []⟩
  else getTokenLoop env cfg quota_group force_rotate session_id sorted total
    total 0 st [] none []

theorem sessLookup_remove (sid : String) (s : List (String × String)) :
    sessLookup (sessRemove sid s) sid = none := by
  induction s with
  | nil => rfl
  | cons kv rest ih =>
      obtain ⟨k, v⟩ := kv
      by_cases hk : k = sid
      · simpa [sessRemove, List.filter, hk] using ih
      · simpa [sessRemove, List.filter, sessLookup, hk] using ih

theorem sessLookup_insert (sid aid : String) (s : List (String × String)) :
    sessLookup (sessInsert sid aid s) sid = some aid := by
  simp [sessInsert, sessLookup]

theorem rrScan_not_limited (limited : String → Bool)
    (sorted : List ProxyToken) (total : Nat) (attempted : List String)
    (start : Nat) :
    ∀ fuel offset cand,
      rrScan limited sorted total attempted start offset fuel = some cand →
      limited cand.account_id = false := by
  intro fuel
  induction fuel with
  | zero => intro offset cand h; simp [rrScan] at h
  | succ n ih =>
      intro offset cand h
      simp only [rrScan] at h
      cases hg : sorted.get? ((start + offset) % total) with
      | none => rw [hg] at h; cases h
      | some c =>
          rw [hg] at h
          dsimp only at h
          by_cases hc : (attempted.contains c.account_id ||
              limited c.account_id) = true
          · rw [if_pos hc] at h
            exact ih _ _ h
          · rw [if_neg hc] at h
            simp only [Option.some.injEq] at h
            subst h
            simp only [Bool.or_eq_true] at hc
            push_neg at hc
            simpa using hc.2

theorem finishPhase_spec (env : TMEnv) (token : ProxyToken) (st : TMState) :
    (∃ tk pid em st3, finishPhase env token st =
        .done tk pid em token.account_id st3 ∧ st3.sessions = st.sessions) ∨
    (∃ e st3, finishPhase env token st = .next e st3 ∧
        st3.sessions = st.sessions) := by
  unfold finishPhase
  by_cases hr : token.timestamp - 300 ≤ env.now
  · rw [if_pos hr]
    cases henv : env.refresh token.refresh_token with
    | error e =>
        simp only [henv]
        by_cases hig : strContains e "invalid_grant" = true
        · rw [if_pos hig]
          right
          exact ⟨_, _, rfl, rfl⟩
        · rw [if_neg hig]
          right
          exact ⟨_, _, rfl, rfl⟩
    | ok tr =>
        simp only [henv]
        try dsimp only
        cases hp : token.project_id with
        | some pid =>
            try simp only [hp]
            left
            exact ⟨_, _, _, _, rfl, rfl⟩
        | none =>
            try simp only [hp]
            cases hf : env.fetchProject tr.1 with
            | ok pid =>
                try simp only [hf]
                left
                exact ⟨_, _, _, _, rfl, rfl⟩
            | error e2 =>
                try simp only [hf]
                right
                exact ⟨_, _, rfl, rfl⟩
  · rw [if_neg hr]
    try dsimp only
    cases hp : token.project_id with
    | some pid =>
        try simp only [hp]
        left
        exact ⟨_, _, _, _, rfl, rfl⟩
    | none =>
        try simp only [hp]
        cases hf : env.fetchProject token.access_token with
        | ok pid =>
            try simp only [hf]
            left
            exact ⟨_, _, _, _, rfl, rfl⟩
        | error e2 =>
            try simp only [hf]
            right
            exact ⟨_, _, rfl, rfl⟩

theorem getTokenLoop_rotate (env : TMEnv) (cfg : StickySessionConfig)
    (group : String) (force : Bool) (sid_opt : Option String)
    (sorted : List ProxyToken) (total : Nat) :
    ∀ fuel attempt st attempted last_error sleeps,
      (force || decide (0 < attempt)) = true →
      (∀ tk pid em aid,
        (getTokenLoop env cfg group force sid_opt sorted total fuel attempt
          st attempted last_error sleeps).result = .ok (tk, pid, em, aid) →
        env.limited aid = false) ∧
      (getTokenLoop env cfg group force sid_opt sorted total fuel attempt
        st attempted last_error sleeps).state.sessions = st.sessions ∧
      (getTokenLoop env cfg group force sid_opt sorted total fuel attempt
        st attempted last_error sleeps).sleeps = sleeps := by
  intro fuel
  induction fuel with
  | zero =>
      intro attempt st attempted last_error sleeps hrot
      refine ⟨?_, rfl, rfl⟩
      intro tk pid em aid h
      simp [getTokenLoop] at h
  | succ n ih =>
      intro attempt st attempted last_error sleeps hrot
      have hsticky : stickyPhase env cfg true sid_opt sorted attempted st =
          (none, st, none) := by
        simp [stickyPhase]
      cases hrr : rrScan env.limited sorted total attempted
          (st.currentIndex % total) 0 total with
      | none =>
          have hstep : getTokenLoop env cfg group force sid_opt sorted total
              (n + 1) attempt st attempted last_error sleeps =
              ⟨.error (minWaitError env sorted),
               { st with currentIndex := st.currentIndex + 1 }, sleeps⟩ := by
            simp [getTokenLoop, hrot, hsticky, modeCPhase, hrr]
          rw [hstep]
          exact ⟨by intro tk pid em aid h; simp at h, rfl, rfl⟩
      | some token =>
          rcases finishPhase_spec env token
              { st with currentIndex := st.currentIndex + 1 } with
            ⟨tk, pid, em, st3, hfin, hsess⟩ | ⟨e, st3, hfin, hsess⟩
          · have hstep : getTokenLoop env cfg group force sid_opt sorted total
                (n + 1) attempt st attempted last_error sleeps =
                ⟨.ok (tk, pid, em, token.account_id), st3, sleeps⟩ := by
              simp [getTokenLoop, hrot, hsticky, modeCPhase, hrr, hfin]
            rw [hstep]
            refine ⟨?_, hsess, rfl⟩
            intro tk2 pid2 em2 aid2 h
            simp only [Except.ok.injEq, Prod.mk.injEq] at h
            obtain ⟨-, -, -, haid⟩ := h
            subst haid
            exact rrScan_not_limited env.limited sorted total attempted
              (st.currentIndex % total) total 0 token hrr
          · have hstep : getTokenLoop env cfg group force sid_opt sorted total
                (n + 1) attempt st attempted last_error sleeps =
                getTokenLoop env cfg group force sid_opt sorted total n
                  (attempt + 1) st3 (attempted ++ [token.account_id]) (some e)
                  sleeps := by
              simp [getTokenLoop, hrot, hsticky, modeCPhase, hrr, hfin]
            rw [hstep]
            have hrot2 : (force || decide (0 < attempt + 1)) = true := by
              simp
            obtain ⟨h1, h2, h3⟩ := ih (attempt + 1) st3
              (attempted ++ [token.account_id]) (some e) sleeps hrot2
            exact ⟨h1, h2.trans hsess, h3⟩

theorem insertByPriority_ne_nil (x : ProxyToken) (l : List ProxyToken) :
    ¬ (insertByPriority x l = []) := by
  cases l with
  | nil => simp [insertByPriority]
  | cons y ys =>
      simp only [insertByPriority]
      split <;> simp

theorem sortByTier_eq_nil {l : List ProxyToken} (h : sortByTier l = []) :
    l = [] := by
  cases l with
  | nil => rfl
  | cons x xs =>
      exact absurd h (insertByPriority_ne_nil x (sortByTier xs))

/-- C7: in `get_token` with a session id, `mode = CacheFirst` and no
`force_rotate`: (1) when the session's bound account has a remaining
rate-limit wait `w` with `0 < w ≤ max_wait_seconds`, the call records a
sleep of `w` and returns that same bound account (given its token needs
no refresh and its project id is resolved), leaving the manager state
untouched; (2) when `w > max_wait_seconds` (the bound account being
rate-limited), the call does not sleep, the sticky binding for the
session no longer points at the bound account afterwards, and any
account the call returns is a non-rate-limited one, hence a different
account than the bound one. -/
theorem C7_cache_first_sticky (env : TMEnv) (cfg : StickySessionConfig)
    (st : TMState) (quota_group sid bound_id : String) :
    (∀ (b : ProxyToken) (pid : String),
      cfg.mode = .CacheFirst →
      sessLookup st.sessions sid = some bound_id →
      0 < env.wait bound_id →
      env.wait bound_id ≤ cfg.max_wait_seconds →
      findToken (sortByTier st.tokens) bound_id = some b →
      env.now < b.timestamp - 300 →
      b.project_id = some pid →
      get_token env cfg st quota_group false (some sid) =
        ⟨.ok (b.access_token, pid, b.email, b.account_id), st,
         [env.wait bound_id]⟩) ∧
    (cfg.mode = .CacheFirst →
      sessLookup st.sessions sid = some bound_id →
      cfg.max_wait_seconds < env.wait bound_id →
      env.limited bound_id = true →
      st.lastUsed = none →
      ¬ (st.tokens = []) →
      (get_token env cfg st quota_group false (some sid)).sleeps = [] ∧
      (∀ tk pid em aid,
        (get_token env cfg st quota_group false (some sid)).result =
          .ok (tk, pid, em, aid) →
        env.limited aid = false ∧ ¬ (aid = bound_id)) ∧
      ¬ (sessLookup
          (get_token env cfg st quota_group false (some sid)).state.sessions
          sid = some bound_id)) := by
  constructor
  · intro b pid hmode hbind hw hwle hfind hfresh hproj
    have hne0 : ¬ ((sortByTier st.tokens).length = 0) := by
      intro h0
      rw [List.length_eq_zero] at h0
      rw [h0] at hfind
      simp [findToken] at hfind
    obtain ⟨n, hn⟩ : ∃ n, (sortByTier st.tokens).length = n + 1 :=
      ⟨(sortByTier st.tokens).length - 1, by omega⟩
    have hfin : finishPhase env b st =
        .done b.access_token pid b.email b.account_id st := by
      unfold finishPhase
      rw [if_neg (by omega : ¬ (b.timestamp - 300 ≤ env.now))]
      simp [hproj]
    simp only [get_token]
    rw [hn, if_neg (by omega : ¬ (n + 1 = 0))]
    simp [getTokenLoop, stickyPhase, hbind, hmode, hw, hwle, hfind, hfin]
  · intro hmode hbind hwgt hlim hlu htne
    have hw : 0 < env.wait bound_id := by omega
    have hnle : ¬ (env.wait bound_id ≤ cfg.max_wait_seconds) := by omega
    have hne0 : ¬ ((sortByTier st.tokens).length = 0) := by
      intro h0
      rw [List.length_eq_zero] at h0
      exact htne (sortByTier_eq_nil h0)
    obtain ⟨n, hn⟩ : ∃ n, (sortByTier st.tokens).length = n + 1 :=
      ⟨(sortByTier st.tokens).length - 1, by omega⟩
    have hmain : get_token env cfg st quota_group false (some sid) =
        getTokenLoop env cfg quota_group false (some sid)
          (sortByTier st.tokens) (n + 1) (n + 1) 0 st [] none [] := by
      simp only [get_token]
      rw [hn, if_neg (by omega : ¬ (n + 1 = 0))]
    rw [hmain]
    have hsticky : stickyPhase env cfg false (some sid)
        (sortByTier st.tokens) [] st =
        (none, { st with sessions := sessRemove sid st.sessions }, none) := by
      simp [stickyPhase, hbind, hmode, hw, hnle]
    by_cases hg : quota_group = "image_gen"
    · cases hrr : rrScan env.limited (sortByTier st.tokens) (n + 1) []
          (st.currentIndex % (n + 1)) 0 (n + 1) with
      | none =>
          have hstep : getTokenLoop env cfg quota_group false (some sid)
              (sortByTier st.tokens) (n + 1) (n + 1) 0 st [] none [] =
              ⟨.error (minWaitError env (sortByTier st.tokens)),
               { st with
                 sessions := sessRemove sid st.sessions,
                 currentIndex := st.currentIndex + 1 }, []⟩ := by
            simp [getTokenLoop, hsticky, modeCPhase, hrr, hg]
          rw [hstep]
          refine ⟨rfl, by intro tk pid em aid h; simp at h, ?_⟩
          simp [sessLookup_remove]
      | some cand =>
          have hcl : env.limited cand.account_id = false :=
            rrScan_not_limited env.limited (sortByTier st.tokens) (n + 1) []
              (st.currentIndex % (n + 1)) (n + 1) 0 cand hrr
          have hcb : ¬ (cand.account_id = bound_id) := by
            intro heq
            rw [heq, hlim] at hcl
            cases hcl
          rcases finishPhase_spec env cand
              { st with
                sessions := sessRemove sid st.sessions,
                currentIndex := st.currentIndex + 1 } with
            ⟨tk, pid, em, st3, hfin, hsess⟩ | ⟨e, st3, hfin, hsess⟩
          · have hstep : getTokenLoop env cfg quota_group false (some sid)
                (sortByTier st.tokens) (n + 1) (n + 1) 0 st [] none [] =
                ⟨.ok (tk, pid, em, cand.account_id), st3, []⟩ := by
              simp [getTokenLoop, hsticky, modeCPhase, hrr, hg, hfin]
            rw [hstep]
            refine ⟨rfl, ?_, ?_⟩
            · intro tk2 pid2 em2 aid2 h
              simp only [Except.ok.injEq, Prod.mk.injEq] at h
              obtain ⟨-, -, -, haid⟩ := h
              subst haid
              exact ⟨hcl, hcb⟩
            · simp only [hsess]
              simp [sessLookup_remove]
          · have hstep : getTokenLoop env cfg quota_group false (some sid)
                (sortByTier st.tokens) (n + 1) (n + 1) 0 st [] none [] =
                getTokenLoop env cfg quota_group false (some sid)
                  (sortByTier st.tokens) (n + 1) n 1 st3
                  ([] ++ [cand.account_id]) (some e) [] := by
              simp [getTokenLoop, hsticky, modeCPhase, hrr, hg, hfin]
            rw [hstep]
            obtain ⟨h1, h2, h3⟩ := getTokenLoop_rotate env cfg quota_group
              false (some sid) (sortByTier st.tokens) (n + 1) n 1 st3
              ([] ++ [cand.account_id]) (some e) [] (by simp)
            refine ⟨h3, ?_, ?_⟩
            · intro tk2 pid2 em2 aid2 h
              have hl := h1 tk2 pid2 em2 aid2 h
              refine ⟨hl, ?_⟩
              intro heq
              rw [heq, hlim] at hl
              cases hl
            · rw [h2, hsess]
              simp [sessLookup_remove]
    · cases hrr : rrScan env.limited (sortByTier st.tokens) (n + 1) []
          (st.currentIndex % (n + 1)) 0 (n + 1) with
      | none =>
          have hstep : getTokenLoop env cfg quota_group false (some sid)
              (sortByTier st.tokens) (n + 1) (n + 1) 0 st [] none [] =
              ⟨.error (minWaitError env (sortByTier st.tokens)),
               { st with
                 sessions := sessRemove sid st.sessions,
                 currentIndex := st.currentIndex + 1 }, []⟩ := by
            simp [getTokenLoop, hsticky, modeBPhase, hlu, hrr, hg]
          rw [hstep]
          refine ⟨rfl, by intro tk pid em aid h; simp at h, ?_⟩
          simp [sessLookup_remove]
      | some cand =>
          have hcl : env.limited cand.account_id = false :=
            rrScan_not_limited env.limited (sortByTier st.tokens) (n + 1) []
              (st.currentIndex % (n + 1)) (n + 1) 0 cand hrr
          have hcb : ¬ (cand.account_id = bound_id) := by
            intro heq
            rw [heq, hlim] at hcl
            cases hcl
          rcases finishPhase_spec env cand
              { st with
                sessions := sessInsert sid cand.account_id
                  (sessRemove sid st.sessions),
                currentIndex := st.currentIndex + 1,
                lastUsed := some (cand.account_id, 0) } with
            ⟨tk, pid, em, st3, hfin, hsess⟩ | ⟨e, st3, hfin, hsess⟩
          · have hstep : getTokenLoop env cfg quota_group false (some sid)
                (sortByTier st.tokens) (n + 1) (n + 1) 0 st [] none [] =
                ⟨.ok (tk, pid, em, cand.account_id), st3, []⟩ := by
              simp [getTokenLoop, hsticky, modeBPhase, hlu, hrr, hg, hmode,
                hfin]
            rw [hstep]
            refine ⟨rfl, ?_, ?_⟩
            · intro tk2 pid2 em2 aid2 h
              simp only [Except.ok.injEq, Prod.mk.injEq] at h
              obtain ⟨-, -, -, haid⟩ := h
              subst haid
              exact ⟨hcl, hcb⟩
            · simp only [hsess]
              simp only [sessLookup_insert]
              intro heq
              simp only [Option.some.injEq] at heq
              exact hcb heq
          · have hstep : getTokenLoop env cfg quota_group false (some sid)
                (sortByTier st.tokens) (n + 1) (n + 1) 0 st [] none [] =
                getTokenLoop env cfg quota_group false (some sid)
                  (sortByTier st.tokens) (n + 1) n 1 st3
                  ([] ++ [cand.account_id]) (some e) [] := by
              simp [getTokenLoop, hsticky, modeBPhase, hlu, hrr, hg, hmode,
                hfin]
            rw [hstep]
            obtain ⟨h1, h2, h3⟩ := getTokenLoop_rotate env cfg quota_group
              false (some sid) (sortByTier st.tokens) (n + 1) n 1 st3
              ([] ++ [cand.account_id]) (some e) [] (by simp)
            refine ⟨h3, ?_, ?_⟩
            · intro tk2 pid2 em2 aid2 h
              have hl := h1 tk2 pid2 em2 aid2 h
              refine ⟨hl, ?_⟩
              intro heq
              rw [heq, hlim] at hl
              cases hl
            · rw [h2, hsess]
              simp only [sessLookup_insert]
              intro heq
              simp only [Option.some.injEq] at heq
              exact hcb heq

/-- Witness for C7 at concrete inputs: a CacheFirst call with a bound
account waiting 10 s (max 30 s) sleeps 10 s and returns that account
unchanged; with a 60 s wait the call does not sleep and the session is
no longer bound to that account. -/
theorem C7_cache_first_sticky_witness :
    (get_token
        ⟨fun _ => 10, fun _ => true, fun _ => .error "no",
         fun _ => .error "no", 0⟩
        ⟨.CacheFirst, 30⟩
        ⟨[⟨"a1", "tok", "rt", 3600, 100000, "e", some "p", none, false⟩], 0,
         none, [("s1", "a1")]⟩
        "g" false (some "s1") =
      ⟨.ok ("tok", "p", "e", "a1"),
       ⟨[⟨"a1", "tok", "rt", 3600, 100000, "e", some "p", none, false⟩], 0,
        none, [("s1", "a1")]⟩, [10]⟩) ∧
    ((get_token
        ⟨fun id => if id = "a1" then 60 else 0, fun id => decide (id = "a1"),
         fun _ => .error "no", fun _ => .error "no", 0⟩
        ⟨.CacheFirst, 30⟩
        ⟨[⟨"a1", "tok", "rt", 3600, 100000, "e", some "p", none, false⟩,
          ⟨"a2", "tok2", "rt2", 3600, 100000, "e2", some "p2", none, false⟩],
         0, none, [("s1", "a1")]⟩
        "g" false (some "s1")).sleeps = [] ∧
     ¬ (sessLookup
        (get_token
          ⟨fun id => if id = "a1" then 60 else 0, fun id => decide (id = "a1"),
           fun _ => .error "no", fun _ => .error "no", 0⟩
          ⟨.CacheFirst, 30⟩
          ⟨[⟨"a1", "tok", "rt", 3600, 100000, "e", some "p", none, false⟩,
            ⟨"a2", "tok2", "rt2", 3600, 100000, "e2", some "p2", none, false⟩],
           0, none, [("s1", "a1")]⟩
          "g" false (some "s1")).state.sessions "s1" = some "a1")) := by
  refine ⟨?_, ?_, ?_⟩
  · exact (C7_cache_first_sticky
      ⟨fun _ => 10, fun _ => true, fun _ => .error "no",
       fun _ => .error "no", 0⟩
      ⟨.CacheFirst, 30⟩
      ⟨[⟨"a1", "tok", "rt", 3600, 100000, "e", some "p", none, false⟩], 0,
       none, [("s1", "a1")]⟩
      "g" "s1" "a1").1
      ⟨"a1", "tok", "rt", 3600, 100000, "e", some "p", none, false⟩ "p"
      rfl (by decide) (by decide) (by decide) (by decide) (by decide) rfl
  · exact ((C7_cache_first_sticky
      ⟨fun id => if id = "a1" then 60 else 0, fun id => decide (id = "a1"),
       fun _ => .error "no", fun _ => .error "no", 0⟩
      ⟨.CacheFirst, 30⟩
      ⟨[⟨"a1", "tok", "rt", 3600, 100000, "e", some "p", none, false⟩,
        ⟨"a2", "tok2", "rt2", 3600, 100000, "e2", some "p2", none, false⟩],
       0, none, [("s1", "a1")]⟩
      "g" "s1" "a1").2
      rfl (by decide) (by decide) (by decide) rfl (by decide)).1
  · exact ((C7_cache_first_sticky
      ⟨fun id => if id = "a1" then 60 else 0, fun id => decide (id = "a1"),
       fun _ => .error "no", fun _ => .error "no", 0⟩
      ⟨.CacheFirst, 30⟩
      ⟨[⟨"a1", "tok", "rt", 3600, 100000, "e", some "p", none, false⟩,
        ⟨"a2", "tok2", "rt2", 3600, 100000, "e2", some "p2", none, false⟩],
       0, none, [("s1", "a1")]⟩
      "g" "s1" "a1").2
      rfl (by decide) (by decide) (by decide) rfl (by decide)).2.2

end Antigravity
